import Mathlib

/-!
# redis-accounting-example: the ledger operations of `main.go`

A shallow embedding of `src/main.go`.  Go functions with side effects are
embedded as state-passing functions.

* Go `error` values are `Option GoError` (`none` is `nil`); the sentinel
  `errAbout` is a constructor of its own, because `retry` compares errors by
  identity.
* Go `int` and `int64` values are integers; where the program adds to one
  (`tranID + 1`, `tranID + 2`, `s += ...`) the result is reduced into the
  signed 64-bit range with `wrap64` (a 64-bit target is assumed for `int`).
  `-amount` is only computed for `amount ≥ 0`, where it cannot overflow.
* The store is the Redis server behind `pool`.  It is modelled at the level of
  the commands the program sends: `GET`, `SET`, `INCRBY`, `DECRBY` and
  `MULTI`/`EXEC`.  `INCRBY` and `DECRBY` work on signed 64-bit integers: the
  store refuses one when the integer under the key, the increment or the
  result is outside that range, leaves the key as it is and goes on with the
  rest of the batch; the refusal is reported inside the reply of `EXEC`, which
  the program does not look at.  What a
  connection replies (an error of `WATCH` or `GET`, and whether `EXEC` executes
  the batch, rejects it or fails) is an input of every attempt (`Env`) and of
  `validate` (`ValidateEnv`): it depends on the server and on the other
  clients, not on `main.go`.
* `redis.Int` and `redis.Int64` parse the reply of `GET` with
  `strconv.ParseInt`, which gives the nearest 64-bit integer for a numeral
  outside the range (`clamp64`); the range error is discarded with the others.
* `encode` and `decode` (gob) are taken to give a record back unchanged, so
  the store holds records.
* The goroutines of `run` are executed one call after the other, in the order
  of the list given.  The last part of the file interleaves the round trips of
  two attempts (`Race`); there the store decides about `EXEC` by the rule of
  the specification, section 6 (`unchanged`).
-/

namespace Ledger

/-! ## Errors and the retry loop -/

/-- Go `error` values that the program can produce or receive. -/
inductive GoError where
  /-- The sentinel `var errAbout = errors.New("abort")`. -/
  | errAbout
  /-- A value built by `fmt.Errorf(msg)`. -/
  | errorf (msg : String)
  /-- An error returned by the store connection (`db.Do`). -/
  | store (msg : String)
deriving DecidableEq, Repr

/-- The body of `retry`: `n` iterations remain, `err` is the current value of
the local variable `err`. -/
def retryLoop {σ : Type} (f : σ → Option GoError × σ) :
    Nat → Option GoError → σ → Option GoError × σ
  | 0, err, s => (err, s)
  | n + 1, _, s =>
    match f s with
    | (err, s1) =>
      if err ≠ some GoError.errAbout then (err, s1) else retryLoop f n err s1

/-- The function `retry(f, count)`: `var err error; for i := 0; i < count; i++ { err = f();
if err != errAbout { return err } }; return err`. -/
def retry {σ : Type} (f : σ → Option GoError × σ) (count : Int) (s : σ) :
    Option GoError × σ :=
  retryLoop f count.toNat none s

/-- Instrumentation of a unit of work: the second component of the state counts
how many times the unit of work has been run. -/
def counted {σ : Type} (f : σ → Option GoError × σ) :
    σ × Nat → Option GoError × (σ × Nat) :=
  fun p => ((f p.1).1, ((f p.1).2, p.2 + 1))

/-- The state in which attempt number `k` (counted from 0) starts, when every
earlier attempt has been run. -/
def stateAt {σ : Type} (f : σ → Option GoError × σ) (s : σ) : Nat → σ
  | 0 => s
  | k + 1 => (f (stateAt f s k)).2

/-- The outcome of attempt number `k` (counted from 0). -/
def outcomeAt {σ : Type} (f : σ → Option GoError × σ) (s : σ) (k : Nat) : Option GoError :=
  (f (stateAt f s k)).1

/-! ## Machine integers -/

/-- The largest Go `int` (and `int64`) on a 64-bit target. -/
def maxInt : Int := 9223372036854775807

/-- The smallest Go `int` (and `int64`) on a 64-bit target. -/
def minInt : Int := -9223372036854775808

/-- Reduction of an integer into the signed 64-bit range: the value a Go
`int`/`int64` addition leaves when the exact result is `x`. -/
def wrap64 (x : Int) : Int :=
  (x + 9223372036854775808) % 18446744073709551616 - 9223372036854775808

/-- The integer is a signed 64-bit integer. -/
def inInt64 (x : Int) : Bool :=
  decide (-9223372036854775808 ≤ x) && decide (x ≤ 9223372036854775807)

/-- The nearest signed 64-bit integer: what `strconv.ParseInt` returns for a
decimal numeral, together with a range error when the numeral is outside the
range. -/
def clamp64 (x : Int) : Int :=
  if x < -9223372036854775808 then -9223372036854775808
  else if 9223372036854775807 < x then 9223372036854775807
  else x

/-! ## Data model -/

/-- The Go struct `transaction`.  The field `Type` is spelled `Type_`. -/
structure transaction where
  ID : Int
  Amount : Int
  AccountID : String
  Type_ : String
deriving DecidableEq, Repr

/-- First binding of a key in an association list (`none` when absent).  Only
the first binding of a key is ever read or replaced. -/
def kvGet {κ ν : Type} [DecidableEq κ] (k : κ) : List (κ × ν) → Option ν
  | [] => none
  | (k1, v) :: rest => if k1 = k then some v else kvGet k rest

/-- Bind a key: the first binding of the key is replaced, and a new key is
added after the existing ones. -/
def kvSet {κ ν : Type} [DecidableEq κ] (k : κ) (v : ν) : List (κ × ν) → List (κ × ν)
  | [] => [(k, v)]
  | (k1, v1) :: rest => if k1 = k then (k, v) :: rest else (k1, v1) :: kvSet k v rest

/-- The contents of the store.  The program uses three families of keys,
`acc:<AccountID>`, `id:tran` and `tran:<ID>`; they differ in their first
character, so a key of one family is never a key of another, and the store is
kept as one map per family.  `acc` maps an account name to the integer under
`acc:<name>`, `idTran` is the integer under `id:tran` (`none` when the key does
not exist), `tran` maps `i` to the record whose encoding is under `tran:<i>`
(`encode` followed by `decode` gives the record back). -/
structure Store where
  acc : List (String × Int)
  idTran : Option Int
  tran : List (Int × transaction)
deriving DecidableEq, Repr

/-- The integer held under `acc:<accID>`, 0 when the key does not exist. -/
def Store.held (db : Store) (accID : String) : Int :=
  (kvGet accID db.acc).getD 0

/-- The reply of `GET acc:<accID>` read through `redis.Int64` with the error
discarded: the stored integer, brought into the 64-bit range, and 0 when the
key does not exist. -/
def Store.balance (db : Store) (accID : String) : Int :=
  clamp64 (db.held accID)

/-- The reply of `GET id:tran` read through `redis.Int` with the error
discarded: the stored integer, brought into the range of `int`, and 0 when the
key does not exist. -/
def Store.counter (db : Store) : Int :=
  clamp64 (db.idTran.getD 0)

/-- The sum of all account balances held by the store. -/
def Store.sumBalances (db : Store) : Int :=
  (db.acc.map Prod.snd).sum

/-- A write command queued with `db.Send` between `MULTI` and `EXEC`. -/
inductive Cmd where
  /-- `SET id:tran v`. -/
  | setIdTran (v : Int)
  /-- `INCRBY acc:<accID> d`: a missing key counts as 0. -/
  | incrBy (accID : String) (d : Int)
  /-- `DECRBY acc:<accID> d`: a missing key counts as 0. -/
  | decrBy (accID : String) (d : Int)
  /-- `SET tran:<id> encode(t)`. -/
  | setTran (id : Int) (t : transaction)
deriving DecidableEq, Repr

/-- The store executes `INCRBY key d` on the account map: the increment, the
integer held under the key (0 for a missing key) and the result are signed
64-bit integers. -/
def accOk (a : String) (d : Int) (acc : List (String × Int)) : Bool :=
  inInt64 d && inInt64 ((kvGet a acc).getD 0) && inInt64 ((kvGet a acc).getD 0 + d)

/-- The effect of `INCRBY key d` on the account map: a refused command leaves
the map as it is. -/
def accAdd (a : String) (d : Int) (acc : List (String × Int)) : List (String × Int) :=
  if accOk a d acc then kvSet a ((kvGet a acc).getD 0 + d) acc else acc

/-- The store executes `DECRBY key d` on the account map: the decrement is a
signed 64-bit integer other than the smallest one, and the store increments by
`-d`. -/
def subOk (a : String) (d : Int) (acc : List (String × Int)) : Bool :=
  inInt64 d && decide (d ≠ -9223372036854775808) && accOk a (-d) acc

/-- The effect of `DECRBY key d` on the account map. -/
def accSub (a : String) (d : Int) (acc : List (String × Int)) : List (String × Int) :=
  if subOk a d acc then kvSet a ((kvGet a acc).getD 0 + -d) acc else acc

/-- The store executes the command: `SET` always, `INCRBY` and `DECRBY` when
operand and result are signed 64-bit integers. -/
def Cmd.accepted : Cmd → Store → Bool
  | Cmd.setIdTran _, _ => true
  | Cmd.incrBy a d, db => accOk a d db.acc
  | Cmd.decrBy a d, db => subOk a d db.acc
  | Cmd.setTran _ _, _ => true

/-- The effect of one write command of an executed batch on the store.  A
command that the store refuses leaves the store as it is. -/
def Cmd.apply : Cmd → Store → Store
  | Cmd.setIdTran v, db => { db with idTran := some v }
  | Cmd.incrBy a d, db => { db with acc := accAdd a d db.acc }
  | Cmd.decrBy a d, db => { db with acc := accSub a d db.acc }
  | Cmd.setTran i t, db => { db with tran := kvSet i t db.tran }

/-- The effect of a batch of write commands, applied in the order queued. -/
def applyBatch : List Cmd → Store → Store
  | [], db => db
  | c :: rest, db => applyBatch rest (c.apply db)

/-- The store executes every command of the batch, each in the state the
commands before it have left. -/
def batchAccepted : List Cmd → Store → Bool
  | [], _ => true
  | c :: rest, db => c.accepted db && batchAccepted rest (c.apply db)

/-- The record ids whose keys `tran:<id>` a batch writes, in order. -/
def tranKeys : List Cmd → List Int
  | [] => []
  | Cmd.setTran i _ :: rest => i :: tranKeys rest
  | _ :: rest => tranKeys rest

/-- What `db.Do("EXEC")` returns. -/
inductive ExecReply where
  /-- The batch was executed: a non-nil reply (the replies of the commands, an
  error reply for a refused one) and a nil error. -/
  | ok
  /-- A nil reply and a nil error: a watched key changed, nothing was executed. -/
  | null
  /-- A non-nil error; nothing was executed. -/
  | fail (msg : String)
deriving DecidableEq, Repr

/-- The behaviour of the store connection during one attempt: for `WATCH` and
for each `GET` the error it returns, if it returns one, and the reply of
`EXEC`.  Whether `EXEC` is accepted depends on what other clients did to the
watched keys, which is why it is given from outside. -/
structure Env where
  watch : Option String
  balance : Option String
  counter : Option String
  exec : ExecReply
deriving DecidableEq, Repr

/-- A connection whose `WATCH` and `GET` calls succeed. -/
def healthy (r : Nat → ExecReply) : Nat → Env :=
  fun i => { watch := none, balance := none, counter := none, exec := r i }

/-- The state threaded through the program.  `db` is the store; `tick` counts
the attempts started so far and selects the connection behaviour of the next
one; `written` is a history variable listing the record ids written by the
executed batches, oldest first. -/
structure Sys where
  db : Store
  tick : Nat
  written : List Int
deriving DecidableEq, Repr

/-- `balance, _ := redis.Int64(db.Do("GET", keyAcc))`: a failed call leaves 0. -/
def readBalance (e : Env) (db : Store) (accID : String) : Int :=
  match e.balance with
  | some _ => 0
  | none => db.balance accID

/-- `tranID, _ := redis.Int(db.Do("GET", "id:tran"))`: a failed call leaves 0. -/
def readCounter (e : Env) (db : Store) : Int :=
  match e.counter with
  | some _ => 0
  | none => db.counter

/-- The end of every attempt: `ok, err := db.Do("EXEC")`, then `err` is returned
if it is not nil, `errAbout` if `ok` is nil, and nil otherwise. -/
def execBatch (reply : ExecReply) (batch : List Cmd) (s : Sys) : Option GoError × Sys :=
  match reply with
  | ExecReply.fail msg => (some (GoError.store msg), s)
  | ExecReply.null => (some GoError.errAbout, s)
  | ExecReply.ok =>
    (none, { s with db := applyBatch batch s.db, written := s.written ++ tranKeys batch })

/-! ## The three operations -/

/-- The closure that `deposit` passes to `retry`: `WATCH id:tran` (result not
looked at), the read of the counter, then the batch.  The ids of the two
elements of `trans` are assigned anew in every attempt, from the counter read
in it. -/
def depositAttempt (env : Nat → Env) (accID : String) (amount : Int) (s : Sys) :
    Option GoError × Sys :=
  let e := env s.tick
  let s1 : Sys := { s with tick := s.tick + 1 }
  let tranID := readCounter e s.db
  let t0 : transaction :=
    { Type_ := "deposit", AccountID := accID, Amount := amount, ID := wrap64 (tranID + 1) }
  let t1 : transaction :=
    { Type_ := "withdraw", AccountID := "Cash", Amount := -amount, ID := wrap64 (tranID + 2) }
  execBatch e.exec
    [Cmd.setIdTran (wrap64 (tranID + 2)), Cmd.decrBy "Cash" amount, Cmd.incrBy accID amount,
      Cmd.setTran t0.ID t0, Cmd.setTran t1.ID t1] s1

/-- The function `deposit(accID, amount)`. -/
def deposit (env : Nat → Env) (accID : String) (amount : Int) (s : Sys) :
    Option GoError × Sys :=
  if amount < 0 then (some (GoError.errorf "invalid amount"), s)
  else retry (depositAttempt env accID amount) 10 s

/-- The closure that `withdraw` passes to `retry`: `WATCH id:tran acc:<accID>`
(result not looked at), the balance check on the balance read, then the batch. -/
def withdrawAttempt (env : Nat → Env) (accID : String) (amount : Int) (s : Sys) :
    Option GoError × Sys :=
  let e := env s.tick
  let s1 : Sys := { s with tick := s.tick + 1 }
  let balance := readBalance e s.db accID
  if balance < amount then (some (GoError.errorf "balance not enough for withdraw"), s1)
  else
    let tranID := readCounter e s.db
    let t0 : transaction :=
      { Type_ := "withdraw", AccountID := accID, Amount := -amount, ID := wrap64 (tranID + 1) }
    let t1 : transaction :=
      { Type_ := "deposit", AccountID := "Cash", Amount := amount, ID := wrap64 (tranID + 2) }
    execBatch e.exec
      [Cmd.setIdTran (wrap64 (tranID + 2)), Cmd.incrBy "Cash" amount, Cmd.decrBy accID amount,
        Cmd.setTran t0.ID t0, Cmd.setTran t1.ID t1] s1

/-- The function `withdraw(accID, amount)`. -/
def withdraw (env : Nat → Env) (accID : String) (amount : Int) (s : Sys) :
    Option GoError × Sys :=
  if amount < 0 then (some (GoError.errorf "invalid amount"), s)
  else retry (withdrawAttempt env accID amount) 10 s

/-- The closure that `transfer` passes to `retry`: `WATCH id:tran acc:<from>
acc:<to>` (result not looked at), the balance check on the balance read for
`from`, then the batch. -/
def transferAttempt (env : Nat → Env) (fromID toID : String) (amount : Int) (s : Sys) :
    Option GoError × Sys :=
  let e := env s.tick
  let s1 : Sys := { s with tick := s.tick + 1 }
  let balance := readBalance e s.db fromID
  if balance < amount then (some (GoError.errorf "balance not enough for transfer"), s1)
  else
    let tranID := readCounter e s.db
    let t0 : transaction :=
      { Type_ := "withdraw", AccountID := fromID, Amount := -amount, ID := wrap64 (tranID + 1) }
    let t1 : transaction :=
      { Type_ := "deposit", AccountID := toID, Amount := amount, ID := wrap64 (tranID + 2) }
    execBatch e.exec
      [Cmd.setIdTran (wrap64 (tranID + 2)), Cmd.decrBy fromID amount, Cmd.incrBy toID amount,
        Cmd.setTran t0.ID t0, Cmd.setTran t1.ID t1] s1

/-- The function `transfer(from, to, amount)`. -/
def transfer (env : Nat → Env) (fromID toID : String) (amount : Int) (s : Sys) :
    Option GoError × Sys :=
  if amount < 0 then (some (GoError.errorf "invalid amount"), s)
  else retry (transferAttempt env fromID toID amount) 10 s

/-- A call of one of the three operations. -/
inductive Call where
  | deposit (accID : String) (amount : Int)
  | withdraw (accID : String) (amount : Int)
  | transfer (fromID toID : String) (amount : Int)
deriving DecidableEq, Repr

/-- One attempt of a call: the closure its operation passes to `retry`. -/
def Call.attempt (env : Nat → Env) : Call → Sys → Option GoError × Sys
  | Call.deposit a x => depositAttempt env a x
  | Call.withdraw a x => withdrawAttempt env a x
  | Call.transfer a b x => transferAttempt env a b x

/-- Execution of a call. -/
def Call.run (env : Nat → Env) : Call → Sys → Option GoError × Sys
  | Call.deposit a x => Ledger.deposit env a x
  | Call.withdraw a x => Ledger.withdraw env a x
  | Call.transfer a b x => Ledger.transfer env a b x

/-- Execution of calls one after the other; the errors they return are
collected in the order of the calls.  The closure `run` of `main` starts one
goroutine per action and waits for all of them; the list gives the order in
which the actions get their turn. -/
def runCalls (env : Nat → Env) : List Call → Sys → List (Option GoError) × Sys
  | [], s => ([], s)
  | c :: rest, s =>
    ((c.run env s).1 :: (runCalls env rest (c.run env s).2).1,
      (runCalls env rest (c.run env s).2).2)

/-- The behaviour of the store connection during `validate`: for each `GET`
the error it returns, if it returns one (for `tran:<i>` also an error of
`decode`).  `validate` discards all of them. -/
structure ValidateEnv where
  acc1 : Option String
  acc2 : Option String
  cash : Option String
  counter : Option String
  record : Int → Option String

/-- A connection on which every read of `validate` succeeds. -/
def quiet : ValidateEnv :=
  { acc1 := none, acc2 := none, cash := none, counter := none, record := fun _ => none }

/-- The `Amount` of the record stored under `tran:<i>`, and 0 when the key does
not exist. -/
def recordAmount (db : Store) (i : Int) : Int :=
  match kvGet i db.tran with
  | some t => t.Amount
  | none => 0

/-- The `Amount` that the loop of `validate` adds for index `i`:
`bs, _ := redis.Bytes(db.Do("GET", "tran:<i>")); decode(bs, &t)`.  When the read
or the decoding fails, or the key does not exist, `t` keeps its zero value and
0 is added. -/
def readAmount (v : ValidateEnv) (db : Store) (i : Int) : Int :=
  match v.record i with
  | some _ => 0
  | none => recordAmount db i

/-- A read of `validate`: `p, _ := redis.Int64(db.Do("GET", key))`, a failed
call leaves 0. -/
def readOr0 (err : Option String) (value : Int) : Int :=
  match err with
  | some _ => 0
  | none => value

/-- The value of `s` in the second block of `validate` after the loop body has
run for `i = 1, ..., n`. -/
def tranSumLoop (v : ValidateEnv) (db : Store) : Nat → Int
  | 0 => 0
  | n + 1 => wrap64 (tranSumLoop v db n + readAmount v db (n + 1))

/-- The sum computed by the second block of `validate`, with
`cnt, _ := redis.Int(db.Do("GET", "id:tran"))`.  The loop
`for i := 1; i <= cnt; i++` does not end when `cnt` is the largest `int`;
the result is then `none`. -/
def validateTranSum (v : ValidateEnv) (db : Store) : Option Int :=
  if readOr0 v.counter db.counter = maxInt then none
  else some (tranSumLoop v db (readOr0 v.counter db.counter).toNat)

/-- The sum computed by the first block of `validate`. -/
def validateAccSum (v : ValidateEnv) (db : Store) : Int :=
  wrap64 (wrap64 (wrap64 (0 + readOr0 v.acc1 (db.balance "Acc1")) +
    readOr0 v.acc2 (db.balance "Acc2")) + readOr0 v.cash (db.balance "Cash"))

/-- The function `validate`: the lines it logs. -/
def validate (v : ValidateEnv) (db : Store) : Option (List String) :=
  match validateTranSum v db with
  | none => none
  | some s2 =>
    some ((if validateAccSum v db ≠ 0 then ["sum all accounts not equals to 0"] else []) ++
      (if s2 ≠ 0 then ["sum all transactions not equals to 0"] else []))

/-! ## The scenario of `main` -/

/-- The store after `setupInitial`. -/
def seed : Store :=
  { acc := [("Cash", -20000), ("Acc1", 10000), ("Acc2", 10000)], idTran := none, tran := [] }

/-- The start of the program: the seeded store, no attempt made yet. -/
def seedSys : Sys := { db := seed, tick := 0, written := [] }

/-- The nine actions of `main`, in the order listed. -/
def actions : List Call :=
  [Call.deposit "Acc1" 1000, Call.deposit "Acc1" 2000, Call.deposit "Acc2" 5000,
    Call.withdraw "Acc1" 1000, Call.withdraw "Acc2" 1000, Call.transfer "Acc1" "Acc2" 2000,
    Call.transfer "Acc2" "Acc1" 4000, Call.deposit "Acc1" 10000, Call.withdraw "Acc1" 9000]

/-- A unit of work on a counter: it ends in the sentinel twice, then succeeds. -/
def twiceAbort (n : Nat) : Option GoError × Nat :=
  (if n < 2 then some GoError.errAbout else none, n + 1)

/-! ## Auxiliary definitions used to state the theorems -/

/-- The batch that an attempt of the call queues when it has read `tranID`
from the counter. -/
def Call.batch : Call → Int → List Cmd
  | Call.deposit a x, tranID =>
    [Cmd.setIdTran (wrap64 (tranID + 2)), Cmd.decrBy "Cash" x, Cmd.incrBy a x,
      Cmd.setTran (wrap64 (tranID + 1))
        { Type_ := "deposit", AccountID := a, Amount := x, ID := wrap64 (tranID + 1) },
      Cmd.setTran (wrap64 (tranID + 2))
        { Type_ := "withdraw", AccountID := "Cash", Amount := -x, ID := wrap64 (tranID + 2) }]
  | Call.withdraw a x, tranID =>
    [Cmd.setIdTran (wrap64 (tranID + 2)), Cmd.incrBy "Cash" x, Cmd.decrBy a x,
      Cmd.setTran (wrap64 (tranID + 1))
        { Type_ := "withdraw", AccountID := a, Amount := -x, ID := wrap64 (tranID + 1) },
      Cmd.setTran (wrap64 (tranID + 2))
        { Type_ := "deposit", AccountID := "Cash", Amount := x, ID := wrap64 (tranID + 2) }]
  | Call.transfer a b x, tranID =>
    [Cmd.setIdTran (wrap64 (tranID + 2)), Cmd.decrBy a x, Cmd.incrBy b x,
      Cmd.setTran (wrap64 (tranID + 1))
        { Type_ := "withdraw", AccountID := a, Amount := -x, ID := wrap64 (tranID + 1) },
      Cmd.setTran (wrap64 (tranID + 2))
        { Type_ := "deposit", AccountID := b, Amount := x, ID := wrap64 (tranID + 2) }]

/-- The balance check of an attempt: the error it returns when the balance read
for the source account is below the amount, `none` when the check passes.  An
attempt of `deposit` has no such check. -/
def Call.check : Call → Env → Store → Option GoError
  | Call.deposit _ _, _, _ => none
  | Call.withdraw a x, e, db =>
    if readBalance e db a < x then some (GoError.errorf "balance not enough for withdraw")
    else none
  | Call.transfer a _ x, e, db =>
    if readBalance e db a < x then some (GoError.errorf "balance not enough for transfer")
    else none

/-- The amount of a call. -/
def Call.amount : Call → Int
  | Call.deposit _ x => x
  | Call.withdraw _ x => x
  | Call.transfer _ _ x => x

/-- The store executes both balance updates of the batch of the call, in the
order the call queues them, when the batch is executed on `db`. -/
def Call.fits : Call → Store → Bool
  | Call.deposit a x, db => subOk "Cash" x db.acc && accOk a x (accSub "Cash" x db.acc)
  | Call.withdraw a x, db => accOk "Cash" x db.acc && subOk a x (accAdd "Cash" x db.acc)
  | Call.transfer a b x, db => subOk a x db.acc && accOk b x (accSub a x db.acc)

/-- The account map after the two balance updates of the batch of the call. -/
def Call.move : Call → List (String × Int) → List (String × Int)
  | Call.deposit a x, acc => accAdd a x (accSub "Cash" x acc)
  | Call.withdraw a x, acc => accSub a x (accAdd "Cash" x acc)
  | Call.transfer a b x, acc => accAdd b x (accSub a x acc)

/-- An update of the account map that leaves a 64-bit integer under a key
where there was one, and leaves the key alone otherwise. -/
def Tame (n : String) (acc acc1 : List (String × Int)) : Prop :=
  (inInt64 ((kvGet n acc).getD 0) = true → inInt64 ((kvGet n acc1).getD 0) = true) ∧
  (inInt64 ((kvGet n acc).getD 0) = false → (kvGet n acc1).getD 0 = (kvGet n acc).getD 0)

/-- Every integer of the account map lies between `-L` and `L`. -/
def Bounded (L : Int) (acc : List (String × Int)) : Prop :=
  ∀ n : String, -L ≤ (kvGet n acc).getD 0 ∧ (kvGet n acc).getD 0 ≤ L

/-- In a run of calls one after the other, the store executes both balance
updates of every call that commits. -/
def noRefusal (env : Nat → Env) : List Call → Sys → Bool
  | [], _ => true
  | c :: rest, s =>
    (decide ((c.run env s).1 ≠ none) || c.fits s.db) && noRefusal env rest (c.run env s).2

/-- The first record an attempt of the call writes when it has read `tranID`. -/
def Call.rec0 : Call → Int → transaction
  | Call.deposit a x, tranID =>
    { Type_ := "deposit", AccountID := a, Amount := x, ID := wrap64 (tranID + 1) }
  | Call.withdraw a x, tranID =>
    { Type_ := "withdraw", AccountID := a, Amount := -x, ID := wrap64 (tranID + 1) }
  | Call.transfer a _ x, tranID =>
    { Type_ := "withdraw", AccountID := a, Amount := -x, ID := wrap64 (tranID + 1) }

/-- The second record an attempt of the call writes when it has read `tranID`. -/
def Call.rec1 : Call → Int → transaction
  | Call.deposit _ x, tranID =>
    { Type_ := "withdraw", AccountID := "Cash", Amount := -x, ID := wrap64 (tranID + 2) }
  | Call.withdraw _ x, tranID =>
    { Type_ := "deposit", AccountID := "Cash", Amount := x, ID := wrap64 (tranID + 2) }
  | Call.transfer _ b x, tranID =>
    { Type_ := "deposit", AccountID := b, Amount := x, ID := wrap64 (tranID + 2) }

/-- The sum of the `Amount`s of those records of a list that name the account. -/
def namedAmount (a : String) : List transaction → Int
  | [] => 0
  | t :: rest => (if t.AccountID = a then t.Amount else 0) + namedAmount a rest

/-- The pairing table of the specification (section 4.2) for an operation that
read the counter value `cnt`: the two records with ids `cnt + 1` and `cnt + 2`. -/
def pairing : Call → Int → transaction × transaction
  | Call.deposit a x, cnt =>
    ({ ID := cnt + 1, Type_ := "deposit", AccountID := a, Amount := x },
     { ID := cnt + 2, Type_ := "withdraw", AccountID := "Cash", Amount := -x })
  | Call.withdraw a x, cnt =>
    ({ ID := cnt + 1, Type_ := "withdraw", AccountID := a, Amount := -x },
     { ID := cnt + 2, Type_ := "deposit", AccountID := "Cash", Amount := x })
  | Call.transfer a b x, cnt =>
    ({ ID := cnt + 1, Type_ := "withdraw", AccountID := a, Amount := -x },
     { ID := cnt + 2, Type_ := "deposit", AccountID := b, Amount := x })

/-- A store whose counter holds the largest `int`. -/
def fullCounterSys : Sys :=
  { db := { acc := [], idTran := some 9223372036854775807, tran := [] }, tick := 0, written := [] }

/-- A store in which `Acc1` holds 1 and nothing else is stored, no attempt made
yet. -/
def unitSys : Sys :=
  { db := { acc := [("Acc1", 1)], idTran := none, tran := [] }, tick := 0, written := [] }

/-- A store in which `Acc1` holds the largest 64-bit integer and `Acc2` holds
1, no attempt made yet. -/
def fullAccSys : Sys :=
  { db := { acc := [("Acc1", 9223372036854775807), ("Acc2", 1)], idTran := none, tran := [] },
    tick := 0, written := [] }

/-- A connection on which every call succeeds and every `EXEC` is accepted. -/
def okEnv : Nat → Env :=
  healthy (fun _ => ExecReply.ok)

/-- The records are stored in balanced pairs: the counter is an even `int`, and
for every `j ≥ 0` with `2 * j + 2` below the largest `int` the amounts found
under `tran:<2j+1>` and `tran:<2j+2>` sum to 0. -/
def Paired (db : Store) : Prop :=
  db.counter % 2 = 0 ∧ minInt ≤ db.counter ∧ db.counter ≤ maxInt ∧
  ∀ j : Nat, 2 * (j : Int) + 2 ≤ maxInt →
    recordAmount db (2 * (j : Int) + 1) + recordAmount db (2 * (j : Int) + 2) = 0

/-- The change that a committed call makes to the balance of the account `n`:
the sum of the amounts of its two records that name `n`. -/
def Call.delta (c : Call) (n : String) : Int :=
  namedAmount n [c.rec0 0, c.rec1 0]

/-- The nine actions of `main` in an order in which the two withdrawals from
`Acc1` come first and the transfer out of `Acc1` third. -/
def drainedOrder : List Call :=
  [Call.withdraw "Acc1" 1000, Call.withdraw "Acc1" 9000, Call.transfer "Acc1" "Acc2" 2000,
    Call.deposit "Acc1" 1000, Call.deposit "Acc1" 2000, Call.deposit "Acc2" 5000,
    Call.withdraw "Acc2" 1000, Call.transfer "Acc2" "Acc1" 4000, Call.deposit "Acc1" 10000]

/-- A connection on which `GET id:tran` returns an error reply while `WATCH`,
the other `GET` and `EXEC` succeed. -/
def counterReadFails : Nat → Env :=
  fun _ => { watch := none, balance := none, counter := some "BUSY", exec := ExecReply.ok }

/-- A connection on which `WATCH` returns an error reply while the `GET` calls
and `EXEC` succeed. -/
def watchFails : Nat → Env :=
  fun _ => { watch := some "BUSY", balance := none, counter := none, exec := ExecReply.ok }

/-- A connection on which the `GET` of the balance returns an error reply while
`WATCH`, `GET id:tran` and `EXEC` succeed. -/
def balanceReadFails : Nat → Env :=
  fun _ => { watch := none, balance := some "BUSY", counter := none, exec := ExecReply.ok }

/-- A connection on which the `GET` of `tran:<2>` made by `validate` returns an
error reply while its other reads succeed. -/
def secondRecordFails : ValidateEnv :=
  { acc1 := none, acc2 := none, cash := none, counter := none,
    record := fun i => if i = 2 then some "BUSY" else none }

/-- The state after the first two actions of `main` have committed. -/
def afterTwo : Sys :=
  (runCalls okEnv [Call.deposit "Acc1" 1000, Call.deposit "Acc1" 2000] seedSys).2

/-- The account a call takes money out of, checked against the amount;
`deposit` has none. -/
def Call.source : Call → Option String
  | Call.deposit _ _ => none
  | Call.withdraw a _ => some a
  | Call.transfer a _ _ => some a

/-! ## Two goroutines racing on the store -/

/-- A key of the store: `acc:<accID>`, `id:tran` or `tran:<id>`. -/
inductive Key where
  | acc (accID : String)
  | idTran
  | tran (id : Int)
deriving DecidableEq, Repr

/-- What the store holds under a key: an integer or an encoded record. -/
inductive Value where
  | int (v : Int)
  | record (t : transaction)
deriving DecidableEq, Repr

/-- The value under a key, `none` when the key does not exist. -/
def Store.get (db : Store) : Key → Option Value
  | Key.acc a => (kvGet a db.acc).map Value.int
  | Key.idTran => db.idTran.map Value.int
  | Key.tran i => (kvGet i db.tran).map Value.record

/-- The keys an attempt of the call passes to `WATCH`. -/
def Call.watched : Call → List Key
  | Call.deposit _ _ => [Key.idTran]
  | Call.withdraw a _ => [Key.idTran, Key.acc a]
  | Call.transfer a b _ => [Key.idTran, Key.acc a, Key.acc b]

/-- The values of the given keys, as the store holds them now. -/
def snapshot (db : Store) (keys : List Key) : List (Key × Option Value) :=
  keys.map (fun k => (k, db.get k))

/-- Modelled from the spec: the store itself is not part of the repository.
Section 6 gives its commit as `commit(batch) -> accepted|rejected`, where
"`rejected` occurs iff any watched key's value changed between `watch` and
`commit`".  `snap` holds the values of the watched keys at the time of `watch`;
the commit is accepted when the store still holds these values.  (Redis rejects
the commit when a watched key was written in between; every batch of the
program changes the value under `id:tran`, which every attempt watches, so for
this program the two readings agree.) -/
def unchanged (db : Store) (snap : List (Key × Option Value)) : Bool :=
  snap.all (fun p => decide (db.get p.1 = p.2))

/-- Where a goroutine stands within one attempt: before `WATCH`; after `WATCH`
(with the watched values); after a balance check that passed; after the read
of the counter, the batch queued; or returned from the closure with an error
value. -/
inductive Phase where
  | start
  | watched (snap : List (Key × Option Value))
  | checked (snap : List (Key × Option Value))
  | ready (snap : List (Key × Option Value)) (tranID : Int)
  | finished (err : Option GoError)
deriving DecidableEq, Repr

/-- One round trip to the store of an attempt of the call, all calls to the
store succeeding: `WATCH`; the `GET` of the balance with its check (`withdraw`
and `transfer`); the `GET` of the counter; `MULTI` ... `EXEC`, which executes
the batch when no watched value has changed and returns nil otherwise. -/
def Call.step (c : Call) : Phase → Store → Phase × Store
  | Phase.start, db => (Phase.watched (snapshot db c.watched), db)
  | Phase.watched snap, db =>
    match c with
    | Call.deposit _ _ => (Phase.ready snap db.counter, db)
    | Call.withdraw a x =>
      if db.balance a < x then
        (Phase.finished (some (GoError.errorf "balance not enough for withdraw")), db)
      else (Phase.checked snap, db)
    | Call.transfer a _ x =>
      if db.balance a < x then
        (Phase.finished (some (GoError.errorf "balance not enough for transfer")), db)
      else (Phase.checked snap, db)
  | Phase.checked snap, db => (Phase.ready snap db.counter, db)
  | Phase.ready snap tranID, db =>
    if unchanged db snap then (Phase.finished none, applyBatch (c.batch tranID) db)
    else (Phase.finished (some GoError.errAbout), db)
  | Phase.finished err, db => (Phase.finished err, db)

/-- Two goroutines, each within one attempt, on one store.  `late` is a history
variable: it is set when a goroutine executes `EXEC` while the other has not
yet executed its `WATCH`, that is, when the two attempts do not overlap. -/
structure Race where
  db : Store
  a : Phase
  b : Phase
  late : Bool
deriving DecidableEq, Repr

/-- The goroutine is about to execute `EXEC`. -/
def Phase.isReady : Phase → Bool
  | Phase.ready _ _ => true
  | _ => false

/-- The goroutine has not executed `WATCH` yet. -/
def Phase.isStart : Phase → Bool
  | Phase.start => true
  | _ => false

/-- One round trip of one of the two goroutines: of the first when `first` is
true, of the second otherwise. -/
def Race.step (ca cb : Call) (first : Bool) (r : Race) : Race :=
  if first then
    { db := (ca.step r.a r.db).2, a := (ca.step r.a r.db).1, b := r.b,
      late := r.late || (r.a.isReady && r.b.isStart) }
  else
    { db := (cb.step r.b r.db).2, a := r.a, b := (cb.step r.b r.db).1,
      late := r.late || (r.b.isReady && r.a.isStart) }

/-- The round trips of the two goroutines in the order given by the schedule. -/
def Race.run (ca cb : Call) : List Bool → Race → Race
  | [], r => r
  | first :: rest, r => Race.run ca cb rest (Race.step ca cb first r)

theorem stateAt_succ_left {σ : Type} (f : σ → Option GoError × σ) (s : σ) (k : Nat) :
    stateAt f s (k + 1) = stateAt f (f s).2 k := by
  induction k with
  | zero => rfl
  | succ k ih => simp only [stateAt] at ih ⊢; rw [ih]

theorem outcomeAt_succ_left {σ : Type} (f : σ → Option GoError × σ) (s : σ) (k : Nat) :
    outcomeAt f s (k + 1) = outcomeAt f (f s).2 k := by
  unfold outcomeAt
  rw [stateAt_succ_left]

/-- The loop stops at the first attempt whose outcome is not the sentinel. -/
theorem retryLoop_counted_stop {σ : Type} (f : σ → Option GoError × σ) :
    ∀ (n k : Nat) (e0 : Option GoError) (s : σ) (c : Nat), k < n →
      (∀ j, j < k → outcomeAt f s j = some GoError.errAbout) →
      outcomeAt f s k ≠ some GoError.errAbout →
      retryLoop (counted f) n e0 (s, c) = (outcomeAt f s k, (stateAt f s (k + 1), c + (k + 1))) := by
  intro n
  induction n with
  | zero => intro k e0 s c hk; omega
  | succ n ih =>
    intro k e0 s c hk hbefore hat
    cases k with
    | zero =>
      have h0 : (f s).1 ≠ some GoError.errAbout := hat
      simp [retryLoop, counted, outcomeAt, stateAt, h0]
    | succ k =>
      have h0 : (f s).1 = some GoError.errAbout := hbefore 0 (by omega)
      have hrec := ih k (f s).1 (f s).2 (c + 1) (by omega)
        (fun j hj => by rw [← outcomeAt_succ_left]; exact hbefore (j + 1) (by omega))
        (by rw [← outcomeAt_succ_left]; exact hat)
      simp only [retryLoop, counted, h0, ne_eq, not_true_eq_false, if_false]
      rw [h0] at hrec
      rw [hrec, outcomeAt_succ_left, stateAt_succ_left f s (k + 1)]
      simp only [Prod.mk.injEq, true_and]
      omega

/-- When every one of the `n` attempts ends in the sentinel the loop runs all
of them and returns the sentinel. -/
theorem retryLoop_counted_exhaust {σ : Type} (f : σ → Option GoError × σ) :
    ∀ (n : Nat) (e0 : Option GoError) (s : σ) (c : Nat), 0 < n →
      (∀ j, j < n → outcomeAt f s j = some GoError.errAbout) →
      retryLoop (counted f) n e0 (s, c) = (some GoError.errAbout, (stateAt f s n, c + n)) := by
  intro n
  induction n with
  | zero => intro e0 s c h; omega
  | succ n ih =>
    intro e0 s c _ hall
    have h0 : (f s).1 = some GoError.errAbout := hall 0 (by omega)
    simp only [retryLoop, counted, h0, ne_eq, not_true_eq_false, if_false]
    cases n with
    | zero => simp [retryLoop, stateAt]
    | succ n =>
      have hrec := ih (some GoError.errAbout) (f s).2 (c + 1) (by omega)
        (fun j hj => by rw [← outcomeAt_succ_left]; exact hall (j + 1) (by omega))
      rw [hrec, stateAt_succ_left f s (n + 1)]
      simp only [Prod.mk.injEq, true_and]
      omega

/-- The loop never runs the unit of work more often than its bound. -/
theorem retryLoop_counted_le {σ : Type} (f : σ → Option GoError × σ) :
    ∀ (n : Nat) (e0 : Option GoError) (s : σ) (c : Nat),
      (retryLoop (counted f) n e0 (s, c)).2.2 ≤ c + n := by
  intro n
  induction n with
  | zero => intro e0 s c; simp [retryLoop]
  | succ n ih =>
    intro e0 s c
    simp only [retryLoop, counted]
    split
    · simp
    · have := ih (f s).1 (f s).2 (c + 1)
      omega

/-- Counting the runs does not change what the loop returns. -/
theorem retryLoop_counted_erase {σ : Type} (f : σ → Option GoError × σ) :
    ∀ (n : Nat) (e0 : Option GoError) (s : σ) (c : Nat),
      (retryLoop (counted f) n e0 (s, c)).1 = (retryLoop f n e0 s).1 ∧
      (retryLoop (counted f) n e0 (s, c)).2.1 = (retryLoop f n e0 s).2 := by
  intro n
  induction n with
  | zero => intro e0 s c; simp [retryLoop]
  | succ n ih =>
    intro e0 s c
    simp only [retryLoop, counted]
    split
    · simp
    · exact ih (f s).1 (f s).2 (c + 1)


/-- C1: for every unit of work `f` and every attempt limit `N ≥ 1`, `retry f N`
returns the outcome of the first attempt whose outcome is not the sentinel
`errAbout` and has then run `f` exactly up to that attempt; when each of the
first `N` attempts ends in `errAbout` it returns `errAbout` after exactly `N`
runs; `f` is never run more than `N` times.  The run count is read from the
instrumented unit of work `counted f`, which returns what `f` returns. -/
theorem retry_first_non_conflict {σ : Type} (f : σ → Option GoError × σ) (N : Int)
    (hN : 1 ≤ N) (s : σ) :
    (∀ k : Nat, (k : Int) < N →
        (∀ j, j < k → outcomeAt f s j = some GoError.errAbout) →
        outcomeAt f s k ≠ some GoError.errAbout →
        retry (counted f) N (s, 0) = (outcomeAt f s k, (stateAt f s (k + 1), k + 1))) ∧
    ((∀ j : Nat, (j : Int) < N → outcomeAt f s j = some GoError.errAbout) →
        retry (counted f) N (s, 0) = (some GoError.errAbout, (stateAt f s N.toNat, N.toNat))) ∧
    ((retry (counted f) N (s, 0)).2.2 : Int) ≤ N ∧
    (retry (counted f) N (s, 0)).1 = (retry f N s).1 ∧
    (retry (counted f) N (s, 0)).2.1 = (retry f N s).2 := by
  refine ⟨?_, ?_, ?_, ?_, ?_⟩
  · intro k hk hbefore hat
    have h := retryLoop_counted_stop f N.toNat k none s 0 (by omega) hbefore hat
    simpa [retry] using h
  · intro hall
    have h := retryLoop_counted_exhaust f N.toNat none s 0 (by omega)
      (fun j hj => hall j (by omega))
    simpa [retry] using h
  · have h := retryLoop_counted_le f N.toNat none s 0
    unfold retry
    omega
  · exact (retryLoop_counted_erase f N.toNat none s 0).1
  · exact (retryLoop_counted_erase f N.toNat none s 0).2

/-- Witness for C1: with limit 10, the unit of work that aborts twice is run
three times and its third outcome, nil, is returned. -/
theorem retry_first_non_conflict_witness :
    retry (counted twiceAbort) 10 (0, 0) = (none, (3, 3)) :=
  (retry_first_non_conflict twiceAbort 10 (by decide) 0).1 2 (by decide) (by decide) (by decide)

/-! ### Association lists -/

theorem kvGet_kvSet {κ ν : Type} [DecidableEq κ] (k j : κ) (v : ν) (m : List (κ × ν)) :
    kvGet j (kvSet k v m) = if k = j then some v else kvGet j m := by
  induction m with
  | nil => simp [kvSet, kvGet]
  | cons p rest ih =>
    obtain ⟨k1, v1⟩ := p
    by_cases h1 : k1 = k
    · subst h1
      by_cases h2 : k1 = j <;> simp [kvSet, kvGet, h2]
    · by_cases h2 : k1 = j
      · subst h2
        have h3 : ¬ k = k1 := fun h => h1 h.symm
        simp [kvSet, kvGet, h1, h3]
      · simp [kvSet, kvGet, h1, h2, ih]

theorem sum_kvSet (k : String) (v : Int) (m : List (String × Int)) :
    ((kvSet k v m).map Prod.snd).sum = (m.map Prod.snd).sum - (kvGet k m).getD 0 + v := by
  induction m with
  | nil => simp [kvSet, kvGet]
  | cons p rest ih =>
    obtain ⟨k1, v1⟩ := p
    by_cases h1 : k1 = k
    · simp only [kvSet, kvGet, h1, if_true, List.map_cons, List.sum_cons, Option.getD_some]
      omega
    · simp only [kvSet, kvGet, h1, if_false, List.map_cons, List.sum_cons, ih]
      omega

/-! ### Machine integers and single commands -/

theorem inInt64_iff (x : Int) : inInt64 x = true ↔ minInt ≤ x ∧ x ≤ maxInt := by
  simp [inInt64, minInt, maxInt]

theorem clamp64_id (x : Int) (hlo : minInt ≤ x) (hhi : x ≤ maxInt) : clamp64 x = x := by
  unfold minInt at hlo
  unfold maxInt at hhi
  unfold clamp64
  rw [if_neg (by omega), if_neg (by omega)]

theorem clamp64_range (x : Int) : minInt ≤ clamp64 x ∧ clamp64 x ≤ maxInt := by
  unfold clamp64 minInt maxInt
  split
  · omega
  · split <;> omega

theorem wrap64_range (x : Int) : minInt ≤ wrap64 x ∧ wrap64 x ≤ maxInt := by
  unfold wrap64 minInt maxInt
  omega

theorem clamp64_wrap64 (x : Int) : clamp64 (wrap64 x) = wrap64 x :=
  clamp64_id _ (wrap64_range x).1 (wrap64_range x).2

/-- What `INCRBY` leaves under a key. -/
theorem get_accAdd (a n : String) (d : Int) (acc : List (String × Int)) :
    (kvGet n (accAdd a d acc)).getD 0 =
      (kvGet n acc).getD 0 + (if accOk a d acc = true ∧ a = n then d else 0) := by
  unfold accAdd
  by_cases hok : accOk a d acc = true
  · rw [if_pos hok, kvGet_kvSet]
    by_cases han : a = n
    · subst han
      simp [hok]
    · simp [han]
  · rw [if_neg hok]
    simp [hok]

/-- What `DECRBY` leaves under a key. -/
theorem get_accSub (a n : String) (d : Int) (acc : List (String × Int)) :
    (kvGet n (accSub a d acc)).getD 0 =
      (kvGet n acc).getD 0 - (if subOk a d acc = true ∧ a = n then d else 0) := by
  unfold accSub
  by_cases hok : subOk a d acc = true
  · rw [if_pos hok, kvGet_kvSet]
    by_cases han : a = n
    · subst han
      simp only [hok, if_true, Option.getD_some, and_self]
      omega
    · simp [han]
  · rw [if_neg hok]
    simp [hok]

theorem kvGet_accAdd_ne (a n : String) (d : Int) (acc : List (String × Int)) (h : ¬ a = n) :
    kvGet n (accAdd a d acc) = kvGet n acc := by
  unfold accAdd
  split
  · rw [kvGet_kvSet, if_neg h]
  · rfl

theorem kvGet_accSub_ne (a n : String) (d : Int) (acc : List (String × Int)) (h : ¬ a = n) :
    kvGet n (accSub a d acc) = kvGet n acc := by
  unfold accSub
  split
  · rw [kvGet_kvSet, if_neg h]
  · rfl

theorem sum_accAdd (a : String) (d : Int) (acc : List (String × Int)) :
    ((accAdd a d acc).map Prod.snd).sum =
      (acc.map Prod.snd).sum + (if accOk a d acc = true then d else 0) := by
  unfold accAdd
  by_cases hok : accOk a d acc = true
  · rw [if_pos hok, if_pos hok, sum_kvSet]
    omega
  · rw [if_neg hok, if_neg hok]
    omega

theorem sum_accSub (a : String) (d : Int) (acc : List (String × Int)) :
    ((accSub a d acc).map Prod.snd).sum =
      (acc.map Prod.snd).sum - (if subOk a d acc = true then d else 0) := by
  unfold accSub
  by_cases hok : subOk a d acc = true
  · rw [if_pos hok, if_pos hok, sum_kvSet]
    omega
  · rw [if_neg hok, if_neg hok]
    omega

/-! ### Attempts -/

/-- Every attempt has the same shape: the balance check, then `EXEC` of the
batch built from the counter that was read. -/
theorem attempt_eq (env : Nat → Env) (c : Call) (s : Sys) :
    c.attempt env s =
      match c.check (env s.tick) s.db with
      | some err => (some err, { s with tick := s.tick + 1 })
      | none =>
        execBatch (env s.tick).exec (c.batch (readCounter (env s.tick) s.db))
          { s with tick := s.tick + 1 } := by
  cases c with
  | deposit a x => simp [Call.attempt, depositAttempt, Call.check, Call.batch]
  | withdraw a x =>
    by_cases h : readBalance (env s.tick) s.db a < x <;>
      simp [Call.attempt, withdrawAttempt, Call.check, Call.batch, h]
  | transfer a b x =>
    by_cases h : readBalance (env s.tick) s.db a < x <;>
      simp [Call.attempt, transferAttempt, Call.check, Call.batch, h]

/-- Every call is the amount check followed by `retry` of its attempt with
limit 10. -/
theorem run_eq (env : Nat → Env) (c : Call) (s : Sys) :
    c.run env s =
      if c.amount < 0 then (some (GoError.errorf "invalid amount"), s)
      else retry (c.attempt env) 10 s := by
  cases c <;> rfl

/-- An attempt either returns an error and leaves the store as it was, or it
returns nil, its balance check passed, `EXEC` was accepted and its batch has
been applied. -/
theorem attempt_cases (env : Nat → Env) (c : Call) (s : Sys) :
    ((c.attempt env s).1 ≠ none ∧ (c.attempt env s).2 = { s with tick := s.tick + 1 }) ∨
    (c.check (env s.tick) s.db = none ∧ (env s.tick).exec = ExecReply.ok ∧
      c.attempt env s =
        (none, { db := applyBatch (c.batch (readCounter (env s.tick) s.db)) s.db,
                 tick := s.tick + 1,
                 written := s.written ++ tranKeys (c.batch (readCounter (env s.tick) s.db)) })) := by
  rw [attempt_eq]
  cases href : c.check (env s.tick) s.db with
  | some err => left; simp
  | none =>
    cases hex : (env s.tick).exec with
    | ok => right; simp [execBatch]
    | null => left; simp [execBatch]
    | fail msg => left; simp [execBatch]

/-- With at least one iteration, what the loop returns is what the unit of work
returns in some state reached through attempts that ended in the sentinel. -/
theorem retryLoop_last {σ : Type} (P : σ → Prop) (f : σ → Option GoError × σ)
    (hP : ∀ s, P s → (f s).1 = some GoError.errAbout → P (f s).2) :
    ∀ (n : Nat) (e0 : Option GoError) (s : σ), P s → 0 < n →
      ∃ s1, P s1 ∧ retryLoop f n e0 s = f s1 := by
  intro n
  induction n with
  | zero => intro e0 s _ h; omega
  | succ n ih =>
    intro e0 s hs _
    by_cases h0 : (f s).1 = some GoError.errAbout
    · cases n with
      | zero =>
        refine ⟨s, hs, ?_⟩
        simp [retryLoop, h0]
        rw [← h0]
      | succ n =>
        obtain ⟨s1, hs1, heq⟩ := ih (f s).1 (f s).2 (hP s hs h0) (by omega)
        refine ⟨s1, hs1, ?_⟩
        rw [← heq]
        simp only [retryLoop, h0, ne_eq, not_true_eq_false, if_false]
    · refine ⟨s, hs, ?_⟩
      simp [retryLoop, h0]

/-- A call whose amount is not negative returns what one of its attempts
returns, and that attempt started from the store and the history the call
started from. -/
theorem run_last (env : Nat → Env) (c : Call) (s : Sys) (hx : 0 ≤ c.amount) :
    ∃ s1 : Sys, s1.db = s.db ∧ s1.written = s.written ∧ s.tick ≤ s1.tick ∧
      c.run env s = c.attempt env s1 := by
  have h := retryLoop_last
    (fun s1 : Sys => s1.db = s.db ∧ s1.written = s.written ∧ s.tick ≤ s1.tick)
    (c.attempt env)
    (by
      intro s1 hs1 habort
      rcases attempt_cases env c s1 with ⟨_, h2⟩ | ⟨_, _, h2⟩
      · rw [h2]
        exact ⟨hs1.1, hs1.2.1, by simp only; omega⟩
      · rw [h2] at habort
        simp at habort)
    10 none s ⟨rfl, rfl, le_refl _⟩ (by decide)
  obtain ⟨s1, hs1, heq⟩ := h
  refine ⟨s1, hs1.1, hs1.2.1, hs1.2.2, ?_⟩
  rw [run_eq, if_neg (by omega)]
  exact heq

/-- A call either returns an error and leaves the store and the history as they
were, or it returns nil and the batch of one attempt, whose balance check
passed on the store the call started from, has been applied to that store. -/
theorem run_cases (env : Nat → Env) (c : Call) (s : Sys) :
    ((c.run env s).1 ≠ none ∧ (c.run env s).2.db = s.db ∧
      (c.run env s).2.written = s.written) ∨
    (0 ≤ c.amount ∧ ∃ i : Nat, c.check (env i) s.db = none ∧
      (c.run env s).1 = none ∧
      (c.run env s).2.db = applyBatch (c.batch (readCounter (env i) s.db)) s.db ∧
      (c.run env s).2.written =
        s.written ++ tranKeys (c.batch (readCounter (env i) s.db))) := by
  by_cases hx : c.amount < 0
  · left
    rw [run_eq, if_pos hx]
    simp
  · obtain ⟨s1, hdb, hw, _, heq⟩ := run_last env c s (by omega)
    rcases attempt_cases env c s1 with ⟨h1, h2⟩ | ⟨h1, _, h2⟩
    · left
      rw [heq, h2]
      exact ⟨h1, hdb, hw⟩
    · right
      refine ⟨by omega, s1.tick, ?_, ?_, ?_, ?_⟩
      · rw [← hdb]; exact h1
      · rw [heq, h2]
      · rw [heq, h2, hdb]
      · rw [heq, h2, hdb, hw]

/-! ### The effect of a batch -/

theorem tranKeys_batch (c : Call) (t : Int) :
    tranKeys (c.batch t) = [wrap64 (t + 1), wrap64 (t + 2)] := by
  cases c <;> rfl

theorem idTran_batch (c : Call) (t : Int) (db : Store) :
    (applyBatch (c.batch t) db).idTran = some (wrap64 (t + 2)) := by
  cases c <;> rfl

theorem counter_batch (c : Call) (t : Int) (db : Store) :
    (applyBatch (c.batch t) db).counter = wrap64 (t + 2) := by
  unfold Store.counter
  rw [idTran_batch, Option.getD_some, clamp64_wrap64]

theorem tran_batch (c : Call) (t : Int) (db : Store) :
    (applyBatch (c.batch t) db).tran =
      kvSet (wrap64 (t + 2)) (c.rec1 t) (kvSet (wrap64 (t + 1)) (c.rec0 t) db.tran) := by
  cases c <;> rfl

theorem acc_batch_move (c : Call) (t : Int) (db : Store) :
    (applyBatch (c.batch t) db).acc = c.move db.acc := by
  cases c <;> rfl

theorem fits_batch (c : Call) (t : Int) (db : Store) :
    batchAccepted (c.batch t) db = c.fits db := by
  cases c <;> simp [batchAccepted, Call.batch, Cmd.accepted, Cmd.apply, Call.fits]

/-- When the store executes both balance updates, the batch leaves the sum of
the balances as it was. -/
theorem sumBalances_batch (c : Call) (t : Int) (db : Store) (hfit : c.fits db = true) :
    (applyBatch (c.batch t) db).sumBalances = db.sumBalances := by
  unfold Store.sumBalances
  rw [acc_batch_move]
  cases c with
  | deposit a x =>
    simp only [Call.fits, Bool.and_eq_true] at hfit
    simp only [Call.move, sum_accAdd, sum_accSub, hfit.1, hfit.2, if_true]
    omega
  | withdraw a x =>
    simp only [Call.fits, Bool.and_eq_true] at hfit
    simp only [Call.move, sum_accAdd, sum_accSub, hfit.1, hfit.2, if_true]
    omega
  | transfer a b x =>
    simp only [Call.fits, Bool.and_eq_true] at hfit
    simp only [Call.move, sum_accAdd, sum_accSub, hfit.1, hfit.2, if_true]
    omega

/-- When the store executes both balance updates, the integer held for an
account changes by the sum of the amounts of the two records that name it. -/
theorem held_batch (c : Call) (t : Int) (db : Store) (n : String) (hfit : c.fits db = true) :
    (applyBatch (c.batch t) db).held n =
      db.held n + namedAmount n [c.rec0 t, c.rec1 t] := by
  unfold Store.held
  rw [acc_batch_move]
  cases c with
  | deposit a x =>
    simp only [Call.fits, Bool.and_eq_true] at hfit
    simp only [Call.move, get_accAdd, get_accSub, hfit.1, hfit.2, true_and, namedAmount,
      Call.rec0, Call.rec1]
    by_cases h1 : a = n <;> by_cases h2 : "Cash" = n <;>
      (simp only [h1, h2, if_true, if_false, reduceIte]
       omega)
  | withdraw a x =>
    simp only [Call.fits, Bool.and_eq_true] at hfit
    simp only [Call.move, get_accAdd, get_accSub, hfit.1, hfit.2, true_and, namedAmount,
      Call.rec0, Call.rec1]
    by_cases h1 : a = n <;> by_cases h2 : "Cash" = n <;>
      (simp only [h1, h2, if_true, if_false, reduceIte]
       omega)
  | transfer a b x =>
    simp only [Call.fits, Bool.and_eq_true] at hfit
    simp only [Call.move, get_accAdd, get_accSub, hfit.1, hfit.2, true_and, namedAmount,
      Call.rec0, Call.rec1]
    by_cases h1 : a = n <;> by_cases h2 : b = n <;>
      (simp only [h1, h2, if_true, if_false, reduceIte]
       omega)

/-- An account that neither record of the batch names keeps its key as it was,
whether the store executes the balance updates or not. -/
theorem acc_batch (c : Call) (t : Int) (db : Store) (n : String)
    (h0 : n ≠ (c.rec0 t).AccountID) (h1 : n ≠ (c.rec1 t).AccountID) :
    kvGet n (applyBatch (c.batch t) db).acc = kvGet n db.acc := by
  rw [acc_batch_move]
  cases c with
  | deposit a x =>
    have ha : ¬ a = n := fun h => h0 h.symm
    have hc : ¬ "Cash" = n := fun h => h1 h.symm
    simp only [Call.move]
    rw [kvGet_accAdd_ne _ _ _ _ ha, kvGet_accSub_ne _ _ _ _ hc]
  | withdraw a x =>
    have ha : ¬ a = n := fun h => h0 h.symm
    have hc : ¬ "Cash" = n := fun h => h1 h.symm
    simp only [Call.move]
    rw [kvGet_accSub_ne _ _ _ _ ha, kvGet_accAdd_ne _ _ _ _ hc]
  | transfer a b x =>
    have ha : ¬ a = n := fun h => h0 h.symm
    have hb : ¬ b = n := fun h => h1 h.symm
    simp only [Call.move]
    rw [kvGet_accAdd_ne _ _ _ _ hb, kvGet_accSub_ne _ _ _ _ ha]

/-! ### Conservation of the balances -/

theorem run_sumBalances (env : Nat → Env) (c : Call) (s : Sys)
    (h : (c.run env s).1 ≠ none ∨ c.fits s.db = true) :
    (c.run env s).2.db.sumBalances = s.db.sumBalances := by
  rcases run_cases env c s with ⟨_, hdb, _⟩ | ⟨_, i, _, hnil, hdb, _⟩
  · rw [hdb]
  · rcases h with h | h
    · exact absurd hnil h
    · rw [hdb, sumBalances_batch _ _ _ h]

theorem runCalls_sumBalances (env : Nat → Env) (calls : List Call) :
    ∀ s : Sys, noRefusal env calls s = true →
      (runCalls env calls s).2.db.sumBalances = s.db.sumBalances := by
  induction calls with
  | nil => intro s _; rfl
  | cons c rest ih =>
    intro s h
    simp only [noRefusal, Bool.and_eq_true, Bool.or_eq_true, decide_eq_true_eq] at h
    simp only [runCalls]
    rw [ih _ h.2, run_sumBalances env c s h.1]

/-- C2 (amended): the store executes both balance updates of the batch of a call exactly
when `fits` holds, whatever counter value the batch was built from.  A
`deposit`, `withdraw` or `transfer` that commits (returns nil) and whose two
balance updates the store executes leaves the sum of all account balances of
the store as it was, whatever the store, the accounts, the amount and the
connection are; hence after any sequence of calls started from the seeded
store in which no balance update of a committing call is refused the sum of
all balances is 0. -/
theorem balances_conserved (env : Nat → Env) (c : Call) (s : Sys) (calls : List Call) :
    (∀ t : Int, batchAccepted (c.batch t) s.db = c.fits s.db) ∧
    ((c.run env s).1 = none → c.fits s.db = true →
      (c.run env s).2.db.sumBalances = s.db.sumBalances) ∧
    (noRefusal env calls seedSys = true →
      (runCalls env calls seedSys).2.db.sumBalances = 0) := by
  refine ⟨fun t => fits_batch c t s.db, fun _ h => run_sumBalances env c s (Or.inr h), ?_⟩
  intro h
  rw [runCalls_sumBalances env calls seedSys h]
  decide

/-- Witness for C2: on the seeded store the transfer of 2000 from `Acc1` to
`Acc2` commits, `Acc1` goes from 10000 to 8000, and the sum of the balances
stays what it was; after the nine actions of `main` the sum is 0. -/
theorem balances_conserved_witness :
    (Call.run okEnv (Call.transfer "Acc1" "Acc2" 2000) seedSys).2.db.held "Acc1" = 8000 ∧
    (Call.run okEnv (Call.transfer "Acc1" "Acc2" 2000) seedSys).2.db.sumBalances =
      seedSys.db.sumBalances ∧
    (runCalls okEnv actions seedSys).2.db.sumBalances = 0 :=
  ⟨by decide,
    (balances_conserved okEnv (Call.transfer "Acc1" "Acc2" 2000) seedSys actions).2.1
      (by decide) (by decide),
    (balances_conserved okEnv (Call.transfer "Acc1" "Acc2" 2000) seedSys actions).2.2
      (by decide)⟩

/-- Counterexample to C2 as stated: on a store in which `Acc1` holds 1,
`deposit("Acc1", 9223372036854775807)` commits (returns nil); the store
executes `DECRBY acc:Cash` and refuses `INCRBY acc:Acc1`, whose result would
leave the 64-bit range, so the sum of the balances goes from 1 to
-9223372036854775806.  From the seeded store,
`deposit("Acc1", 9223372036854775807 - 10000)` commits with `DECRBY acc:Cash`
refused and `INCRBY acc:Acc1` executed: the sum of the balances is then
9223372036854765807, not 0. -/
theorem commit_with_refused_update :
    (deposit okEnv "Acc1" 9223372036854775807 unitSys).1 = none ∧
    unitSys.db.sumBalances = 1 ∧
    (deposit okEnv "Acc1" 9223372036854775807 unitSys).2.db.acc =
      [("Acc1", 1), ("Cash", -9223372036854775807)] ∧
    (deposit okEnv "Acc1" 9223372036854775807 unitSys).2.db.sumBalances =
      -9223372036854775806 ∧
    (runCalls okEnv [Call.deposit "Acc1" 9223372036854765807] seedSys).1 = [none] ∧
    (runCalls okEnv [Call.deposit "Acc1" 9223372036854765807] seedSys).2.db.acc =
      [("Cash", -20000), ("Acc1", 9223372036854775807), ("Acc2", 10000)] ∧
    (runCalls okEnv [Call.deposit "Acc1" 9223372036854765807] seedSys).2.db.sumBalances =
      9223372036854765807 := by
  decide

/-! ### Rejections -/

/-- C3 (amended): when the balance that the attempt reads for the source account (the
integer under its key when the `GET` succeeds, 0 when the `GET` fails) is below
the amount `x ≥ 0`, `withdraw` and `transfer` return their insufficient-funds
error (not nil, not the sentinel) after exactly one attempt and leave the store
and the history of written records as they were, whatever the connection does. -/
theorem insufficient_funds_rejected (env : Nat → Env) (s : Sys) (a b : String) (x : Int)
    (hx : 0 ≤ x) (hbal : readBalance (env s.tick) s.db a < x) :
    readBalance (env s.tick) s.db a =
      (if (env s.tick).balance = none then s.db.balance a else 0) ∧
    withdraw env a x s =
      (some (GoError.errorf "balance not enough for withdraw"),
        { db := s.db, tick := s.tick + 1, written := s.written }) ∧
    transfer env a b x s =
      (some (GoError.errorf "balance not enough for transfer"),
        { db := s.db, tick := s.tick + 1, written := s.written }) := by
  have hnot : ¬ x < 0 := by omega
  refine ⟨?_, ?_, ?_⟩
  · unfold readBalance
    cases (env s.tick).balance <;> simp
  · simp [withdraw, hnot, retry, retryLoop, withdrawAttempt, hbal]
  · simp [transfer, hnot, retry, retryLoop, transferAttempt, hbal]

/-- Witness for C3: on the seeded store `Acc1` holds 10000, so withdrawing or
transferring 10001 is refused; and when the read of the balance fails, 0 is
read and withdrawing 1 is refused. -/
theorem insufficient_funds_rejected_witness :
    (withdraw okEnv "Acc1" 10001 seedSys =
      (some (GoError.errorf "balance not enough for withdraw"),
        { db := seedSys.db, tick := seedSys.tick + 1, written := seedSys.written }) ∧
    transfer okEnv "Acc1" "Acc2" 10001 seedSys =
      (some (GoError.errorf "balance not enough for transfer"),
        { db := seedSys.db, tick := seedSys.tick + 1, written := seedSys.written })) ∧
    withdraw balanceReadFails "Acc1" 1 seedSys =
      (some (GoError.errorf "balance not enough for withdraw"),
        { db := seedSys.db, tick := seedSys.tick + 1, written := seedSys.written }) :=
  ⟨(insufficient_funds_rejected okEnv seedSys "Acc1" "Acc2" 10001 (by decide) (by decide)).2,
    (insufficient_funds_rejected balanceReadFails seedSys "Acc1" "Acc2" 1
      (by decide) (by decide)).2.1⟩

/-- Counterexample to C3 as stated: on the seeded store `Cash` holds -20000,
which is below the amount 0, yet when the `GET` of the balance fails,
`withdraw("Cash", 0)` and `transfer("Cash", "Acc1", 0)` return nil: the check is
made on the 0 left by the failed read, the batch is executed, the counter goes
to 2 and two records are written. -/
theorem failed_read_passes_check :
    seedSys.db.balance "Cash" = -20000 ∧
    seedSys.db.balance "Cash" < 0 ∧
    (withdraw balanceReadFails "Cash" 0 seedSys).1 = none ∧
    (withdraw balanceReadFails "Cash" 0 seedSys).2.db.counter = 2 ∧
    (withdraw balanceReadFails "Cash" 0 seedSys).2.written = [1, 2] ∧
    (transfer balanceReadFails "Cash" "Acc1" 0 seedSys).1 = none ∧
    (transfer balanceReadFails "Cash" "Acc1" 0 seedSys).2.db.counter = 2 ∧
    (transfer balanceReadFails "Cash" "Acc1" 0 seedSys).2.written = [1, 2] := by
  decide

/-- The error an attempt returns is its balance-check error, the sentinel, or
an error of the store connection. -/
theorem attempt_error (env : Nat → Env) (c : Call) (s : Sys) :
    (c.attempt env s).1 = none ∨
    ((c.attempt env s).1 = c.check (env s.tick) s.db ∧ c.check (env s.tick) s.db ≠ none) ∨
    (c.attempt env s).1 = some GoError.errAbout ∨
    ∃ msg, (c.attempt env s).1 = some (GoError.store msg) := by
  rw [attempt_eq]
  cases c.check (env s.tick) s.db with
  | some err => right; left; simp
  | none =>
    cases (env s.tick).exec with
    | ok => left; simp [execBatch]
    | null => right; right; left; simp [execBatch]
    | fail msg => right; right; right; exact ⟨msg, by simp [execBatch]⟩

theorem attempt_tick (env : Nat → Env) (c : Call) (s : Sys) :
    (c.attempt env s).2.tick = s.tick + 1 := by
  rcases attempt_cases env c s with ⟨_, h⟩ | ⟨_, _, h⟩ <;> rw [h]

/-- C4: with a negative amount `deposit`, `withdraw` and `transfer` return the
error "invalid amount" and the state is the one they started from: no attempt
has been started, the store is as it was.  With an amount that is not negative
(0 included) the call is the retry loop over its attempts: at least one attempt
runs and the error returned is not "invalid amount". -/
theorem negative_amount_rejected (env : Nat → Env) (s : Sys) (a b : String) (x : Int) :
    (x < 0 →
      deposit env a x s = (some (GoError.errorf "invalid amount"), s) ∧
      withdraw env a x s = (some (GoError.errorf "invalid amount"), s) ∧
      transfer env a b x s = (some (GoError.errorf "invalid amount"), s)) ∧
    (0 ≤ x →
      (deposit env a x s = retry (depositAttempt env a x) 10 s ∧
        (deposit env a x s).1 ≠ some (GoError.errorf "invalid amount") ∧
        s.tick < (deposit env a x s).2.tick) ∧
      (withdraw env a x s = retry (withdrawAttempt env a x) 10 s ∧
        (withdraw env a x s).1 ≠ some (GoError.errorf "invalid amount") ∧
        s.tick < (withdraw env a x s).2.tick) ∧
      (transfer env a b x s = retry (transferAttempt env a b x) 10 s ∧
        (transfer env a b x s).1 ≠ some (GoError.errorf "invalid amount") ∧
        s.tick < (transfer env a b x s).2.tick)) := by
  constructor
  · intro hx
    simp [deposit, withdraw, transfer, hx]
  · intro hx
    have key : ∀ c : Call, c.amount = x →
        c.run env s = retry (c.attempt env) 10 s ∧
        (c.run env s).1 ≠ some (GoError.errorf "invalid amount") ∧
        s.tick < (c.run env s).2.tick := by
      intro c hc
      obtain ⟨s1, _, _, htick, heq⟩ := run_last env c s (by omega)
      refine ⟨?_, ?_, ?_⟩
      · rw [run_eq, if_neg (by omega)]
      · rw [heq]
        rcases attempt_error env c s1 with h | ⟨h, _⟩ | h | ⟨msg, h⟩ <;> rw [h]
        · simp
        · cases c with
          | deposit a0 x0 => simp [Call.check]
          | withdraw a0 x0 => simp only [Call.check]; split <;> simp
          | transfer a0 b0 x0 => simp only [Call.check]; split <;> simp
        · simp
        · simp
      · rw [heq, attempt_tick]
        omega
    exact ⟨key (Call.deposit a x) rfl, key (Call.withdraw a x) rfl,
      key (Call.transfer a b x) rfl⟩

/-- Witness for C4: amount -1 is rejected on the seeded store, amount 0 is not. -/
theorem negative_amount_rejected_witness :
    (deposit (healthy (fun _ => ExecReply.ok)) "Acc1" (-1) seedSys =
        (some (GoError.errorf "invalid amount"), seedSys) ∧
      withdraw (healthy (fun _ => ExecReply.ok)) "Acc1" (-1) seedSys =
        (some (GoError.errorf "invalid amount"), seedSys) ∧
      transfer (healthy (fun _ => ExecReply.ok)) "Acc1" "Acc2" (-1) seedSys =
        (some (GoError.errorf "invalid amount"), seedSys)) ∧
    (deposit (healthy (fun _ => ExecReply.ok)) "Acc1" 0 seedSys).1 ≠
      some (GoError.errorf "invalid amount") :=
  ⟨(negative_amount_rejected (healthy (fun _ => ExecReply.ok)) seedSys "Acc1" "Acc2" (-1)).1
      (by decide),
    ((negative_amount_rejected (healthy (fun _ => ExecReply.ok)) seedSys "Acc1" "Acc2" 0).2
      (by decide)).1.2.1⟩

/-! ### The records and deltas of a committing attempt -/

theorem wrap64_id (x : Int) (hlo : minInt ≤ x) (hhi : x ≤ maxInt) : wrap64 x = x := by
  unfold minInt at hlo
  unfold maxInt at hhi
  unfold wrap64
  omega

theorem counter_range (db : Store) : minInt ≤ db.counter ∧ db.counter ≤ maxInt :=
  clamp64_range _

theorem readCounter_range (e : Env) (db : Store) :
    minInt ≤ readCounter e db ∧ readCounter e db ≤ maxInt := by
  unfold readCounter
  cases e.counter with
  | some msg => simp only [minInt, maxInt]; omega
  | none => exact counter_range db

theorem rec_pairing (c : Call) (t : Int) (hlo : minInt ≤ t) (hhi : t + 2 ≤ maxInt) :
    c.rec0 t = (pairing c t).1 ∧ c.rec1 t = (pairing c t).2 := by
  have h1 : wrap64 (t + 1) = t + 1 := wrap64_id _ (by omega) (by omega)
  have h2 : wrap64 (t + 2) = t + 2 := wrap64_id _ (by omega) (by omega)
  cases c <;> simp [Call.rec0, Call.rec1, pairing, h1, h2]

theorem pairing_amounts (c : Call) (t : Int) :
    (pairing c t).1.Amount + (pairing c t).2.Amount = 0 := by
  cases c <;> simp [pairing]

theorem tame_trans (n : String) (acc acc1 acc2 : List (String × Int))
    (h1 : Tame n acc acc1) (h2 : Tame n acc1 acc2) : Tame n acc acc2 := by
  constructor
  · intro h
    exact h2.1 (h1.1 h)
  · intro h
    have e := h1.2 h
    rw [← e]
    exact h2.2 (by rw [e]; exact h)

theorem tame_accAdd (a n : String) (d : Int) (acc : List (String × Int)) :
    Tame n acc (accAdd a d acc) := by
  unfold accAdd
  by_cases hok : accOk a d acc = true
  · rw [if_pos hok]
    by_cases han : a = n
    · subst han
      simp only [accOk, Bool.and_eq_true] at hok
      constructor
      · intro _
        rw [kvGet_kvSet, if_pos rfl]
        exact hok.2
      · intro h
        rw [hok.1.2] at h
        exact absurd h (by decide)
    · constructor
      · intro h
        rw [kvGet_kvSet, if_neg han]
        exact h
      · intro _
        rw [kvGet_kvSet, if_neg han]
  · rw [if_neg hok]
    exact ⟨fun h => h, fun _ => rfl⟩

theorem tame_accSub (a n : String) (d : Int) (acc : List (String × Int)) :
    Tame n acc (accSub a d acc) := by
  unfold accSub
  by_cases hok : subOk a d acc = true
  · rw [if_pos hok]
    by_cases han : a = n
    · subst han
      simp only [subOk, accOk, Bool.and_eq_true] at hok
      constructor
      · intro _
        rw [kvGet_kvSet, if_pos rfl]
        exact hok.2.2
      · intro h
        rw [hok.2.1.2] at h
        exact absurd h (by decide)
    · constructor
      · intro h
        rw [kvGet_kvSet, if_neg han]
        exact h
      · intro _
        rw [kvGet_kvSet, if_neg han]
  · rw [if_neg hok]
    exact ⟨fun h => h, fun _ => rfl⟩

theorem tame_move (c : Call) (n : String) (acc : List (String × Int)) :
    Tame n acc (c.move acc) := by
  cases c with
  | deposit a x => exact tame_trans _ _ _ _ (tame_accSub _ _ _ _) (tame_accAdd _ _ _ _)
  | withdraw a x => exact tame_trans _ _ _ _ (tame_accAdd _ _ _ _) (tame_accSub _ _ _ _)
  | transfer a b x => exact tame_trans _ _ _ _ (tame_accSub _ _ _ _) (tame_accAdd _ _ _ _)

/-- The balance read for an account changes with a batch by what the integer
under its key changes by. -/
theorem balance_batch_held (c : Call) (t : Int) (db : Store) (n : String) :
    (applyBatch (c.batch t) db).balance n - db.balance n =
      (applyBatch (c.batch t) db).held n - db.held n := by
  have ht := tame_move c n db.acc
  unfold Store.balance Store.held
  rw [acc_batch_move]
  cases hin : inInt64 ((kvGet n db.acc).getD 0) with
  | true =>
    have h1 := ht.1 hin
    rw [inInt64_iff] at hin h1
    rw [clamp64_id _ hin.1 hin.2, clamp64_id _ h1.1 h1.2]
  | false =>
    rw [ht.2 hin]
    omega

/-- When the store executes both balance updates, the balance read for an
account changes by the sum of the amounts of the two records that name it. -/
theorem balance_batch (c : Call) (t : Int) (db : Store) (n : String) (hfit : c.fits db = true) :
    (applyBatch (c.batch t) db).balance n =
      db.balance n + namedAmount n [c.rec0 t, c.rec1 t] := by
  have h := balance_batch_held c t db n
  rw [held_batch c t db n hfit] at h
  omega

/-- C5 (amended): a committing attempt that read the counter value `cnt` (0
when the read failed), with `cnt + 2` not above the largest `int`, writes
exactly two records, under `tran:<cnt+1>` and `tran:<cnt+2>`: those of the
pairing table with ids `cnt + 1` and `cnt + 2`; every other record key is as
before; the two amounts sum to 0; when the store executes both balance updates
of the batch, the integer under the key of every account, and the balance read
from it, change by the sum of the amounts of the written records naming the
account; an account named by neither record keeps its balance key as it was;
the counter becomes `cnt + 2`.  This holds whatever the connection does. -/
theorem commit_writes_pair (env : Nat → Env) (c : Call) (s : Sys)
    (hhi : readCounter (env s.tick) s.db + 2 ≤ maxInt)
    (hcommit : (c.attempt env s).1 = none) :
    (c.attempt env s).2.written =
      s.written ++ [readCounter (env s.tick) s.db + 1, readCounter (env s.tick) s.db + 2] ∧
    kvGet (readCounter (env s.tick) s.db + 1) (c.attempt env s).2.db.tran =
      some (pairing c (readCounter (env s.tick) s.db)).1 ∧
    kvGet (readCounter (env s.tick) s.db + 2) (c.attempt env s).2.db.tran =
      some (pairing c (readCounter (env s.tick) s.db)).2 ∧
    (∀ i, i ≠ readCounter (env s.tick) s.db + 1 → i ≠ readCounter (env s.tick) s.db + 2 →
      kvGet i (c.attempt env s).2.db.tran = kvGet i s.db.tran) ∧
    (pairing c (readCounter (env s.tick) s.db)).1.Amount +
      (pairing c (readCounter (env s.tick) s.db)).2.Amount = 0 ∧
    (c.fits s.db = true → ∀ n,
      (c.attempt env s).2.db.held n - s.db.held n =
        namedAmount n [(pairing c (readCounter (env s.tick) s.db)).1,
          (pairing c (readCounter (env s.tick) s.db)).2] ∧
      (c.attempt env s).2.db.balance n - s.db.balance n =
        namedAmount n [(pairing c (readCounter (env s.tick) s.db)).1,
          (pairing c (readCounter (env s.tick) s.db)).2]) ∧
    (∀ n, n ≠ (pairing c (readCounter (env s.tick) s.db)).1.AccountID →
      n ≠ (pairing c (readCounter (env s.tick) s.db)).2.AccountID →
      kvGet n (c.attempt env s).2.db.acc = kvGet n s.db.acc) ∧
    (c.attempt env s).2.db.idTran = some (readCounter (env s.tick) s.db + 2) := by
  obtain ⟨hlo, _⟩ := readCounter_range (env s.tick) s.db
  rcases attempt_cases env c s with ⟨hbad, _⟩ | ⟨_, _, heq⟩
  · exact absurd hcommit hbad
  · rw [heq]
    simp only
    generalize readCounter (env s.tick) s.db = cnt at hhi hlo
    have h1 : wrap64 (cnt + 1) = cnt + 1 := wrap64_id _ (by omega) (by omega)
    have h2 : wrap64 (cnt + 2) = cnt + 2 := wrap64_id _ (by omega) (by omega)
    have hne : ¬ cnt + 2 = cnt + 1 := by omega
    obtain ⟨hp0, hp1⟩ := rec_pairing c cnt hlo hhi
    refine ⟨?_, ?_, ?_, ?_, pairing_amounts c _, ?_, ?_, ?_⟩
    · rw [tranKeys_batch, h1, h2]
    · rw [tran_batch, kvGet_kvSet, kvGet_kvSet, h1, h2, if_neg hne, if_pos rfl, hp0]
    · rw [tran_batch, kvGet_kvSet, h2, if_pos rfl, hp1]
    · intro i hi1 hi2
      rw [tran_batch, kvGet_kvSet, kvGet_kvSet, h1, h2, if_neg (fun h => hi2 h.symm),
        if_neg (fun h => hi1 h.symm)]
    · intro hfit n
      rw [balance_batch c cnt s.db n hfit, held_batch c cnt s.db n hfit, hp0, hp1]
      constructor <;> omega
    · intro n hn0 hn1
      exact acc_batch c _ s.db n (by rw [hp0]; exact hn0) (by rw [hp1]; exact hn1)
    · rw [idTran_batch, h2]

/-- Witness for C5: the first deposit of the scenario, on the seeded store,
where `Acc1` goes from 10000 to 11000 and `Cash` from -20000 to -21000; and the
same deposit when the read of the counter fails. -/
theorem commit_writes_pair_witness :
    ((Call.attempt okEnv (Call.deposit "Acc1" 1000) seedSys).2.written =
        seedSys.written ++ [readCounter (okEnv seedSys.tick) seedSys.db + 1,
          readCounter (okEnv seedSys.tick) seedSys.db + 2] ∧
      (Call.attempt okEnv (Call.deposit "Acc1" 1000) seedSys).2.db.held "Cash" -
          seedSys.db.held "Cash" =
        namedAmount "Cash" [(pairing (Call.deposit "Acc1" 1000)
            (readCounter (okEnv seedSys.tick) seedSys.db)).1,
          (pairing (Call.deposit "Acc1" 1000)
            (readCounter (okEnv seedSys.tick) seedSys.db)).2]) ∧
    (Call.attempt okEnv (Call.deposit "Acc1" 1000) seedSys).2.db.acc =
      [("Cash", -21000), ("Acc1", 11000), ("Acc2", 10000)] ∧
    (Call.attempt counterReadFails (Call.deposit "Acc1" 1000) afterTwo).2.db.idTran = some 2 :=
  ⟨⟨(commit_writes_pair okEnv (Call.deposit "Acc1" 1000) seedSys (by decide) (by decide)).1,
      ((commit_writes_pair okEnv (Call.deposit "Acc1" 1000) seedSys (by decide)
        (by decide)).2.2.2.2.2.1 (by decide) "Cash").1⟩,
    by decide,
    (commit_writes_pair counterReadFails (Call.deposit "Acc1" 1000) afterTwo (by decide)
      (by decide)).2.2.2.2.2.2.2⟩

/-- Counterexample to C5 as stated.  An attempt of `deposit("Acc1", 1000)` that
reads the counter value 9223372036854775807 commits, and the ids of its two
records are -9223372036854775808 and -9223372036854775807, not the counter
value plus 1 and plus 2: the additions `tranID + 1` and `tranID + 2` overflow.
An attempt of `transfer("Acc1", "Acc2", 9223372036854775807)` on a store where
`Acc1` holds 9223372036854775807 and `Acc2` holds 1 commits and writes the
record with type deposit, account `Acc2` and that amount, while the store
refuses `INCRBY acc:Acc2`: `Acc2` still holds 1. -/
theorem commit_breaks_pairing :
    (depositAttempt okEnv "Acc1" 1000 fullCounterSys).1 = none ∧
    fullCounterSys.db.counter = 9223372036854775807 ∧
    (depositAttempt okEnv "Acc1" 1000 fullCounterSys).2.written =
      [-9223372036854775808, -9223372036854775807] ∧
    (depositAttempt okEnv "Acc1" 1000 fullCounterSys).2.written ≠
      [fullCounterSys.db.counter + 1, fullCounterSys.db.counter + 2] ∧
    kvGet (fullCounterSys.db.counter + 1)
      (depositAttempt okEnv "Acc1" 1000 fullCounterSys).2.db.tran = none ∧
    (transferAttempt okEnv "Acc1" "Acc2" 9223372036854775807 fullAccSys).1 = none ∧
    kvGet 2 (transferAttempt okEnv "Acc1" "Acc2" 9223372036854775807 fullAccSys).2.db.tran =
      some { ID := 2, Amount := 9223372036854775807, AccountID := "Acc2", Type_ := "deposit" } ∧
    fullAccSys.db.held "Acc2" = 1 ∧
    (transferAttempt okEnv "Acc1" "Acc2" 9223372036854775807 fullAccSys).2.db.held "Acc2" = 1 ∧
    (transferAttempt okEnv "Acc1" "Acc2" 9223372036854775807 fullAccSys).2.db.held "Acc1" = 0 := by
  decide

/-! ### Density of the record ids -/

theorem recordAmount_batch (c : Call) (t : Int) (db : Store) (i : Int) :
    recordAmount (applyBatch (c.batch t) db) i =
      if wrap64 (t + 2) = i then (c.rec1 t).Amount
      else if wrap64 (t + 1) = i then (c.rec0 t).Amount
      else recordAmount db i := by
  unfold recordAmount
  rw [tran_batch, kvGet_kvSet, kvGet_kvSet]
  by_cases h2 : wrap64 (t + 2) = i
  · simp [h2]
  · by_cases h1 : wrap64 (t + 1) = i
    · simp [h1, h2]
    · simp [h1, h2]

theorem rec_amounts (c : Call) (t : Int) : (c.rec0 t).Amount + (c.rec1 t).Amount = 0 := by
  cases c <;> simp [Call.rec0, Call.rec1]

/-- A committed batch built from an even counter value keeps the records in
balanced pairs. -/
theorem paired_commit (c : Call) (t : Int) (db : Store) (hp : Paired db)
    (ht : t % 2 = 0) (hlo : minInt ≤ t) (hhi : t ≤ maxInt) :
    Paired (applyBatch (c.batch t) db) := by
  obtain ⟨_, _, _, hpairs⟩ := hp
  have hcnt : (applyBatch (c.batch t) db).counter = wrap64 (t + 2) := counter_batch c t db
  unfold minInt at hlo
  unfold maxInt at hhi
  refine ⟨?_, ?_, ?_, ?_⟩
  · rw [hcnt]; unfold wrap64; omega
  · rw [hcnt]; unfold wrap64 minInt; omega
  · rw [hcnt]; unfold wrap64 maxInt; omega
  · intro j hj
    have hold := hpairs j hj
    have hsum := rec_amounts c t
    unfold maxInt at hj
    rw [recordAmount_batch, recordAmount_batch]
    have hA : wrap64 (t + 1) = t + 1 := by unfold wrap64; omega
    by_cases hB : t + 2 ≤ 9223372036854775807
    · have hB2 : wrap64 (t + 2) = t + 2 := by unfold wrap64; omega
      rw [hA, hB2]
      by_cases hj0 : t = 2 * (j : Int)
      · have e1 : ¬ t + 2 = 2 * (j : Int) + 1 := by omega
        have e2 : t + 1 = 2 * (j : Int) + 1 := by omega
        have e3 : t + 2 = 2 * (j : Int) + 2 := by omega
        rw [if_neg e1, if_pos e2, if_pos e3]
        omega
      · have e1 : ¬ t + 2 = 2 * (j : Int) + 1 := by omega
        have e2 : ¬ t + 1 = 2 * (j : Int) + 1 := by omega
        have e3 : ¬ t + 2 = 2 * (j : Int) + 2 := by omega
        have e4 : ¬ t + 1 = 2 * (j : Int) + 2 := by omega
        rw [if_neg e1, if_neg e2, if_neg e3, if_neg e4]
        exact hold
    · have hB2 : wrap64 (t + 2) = -9223372036854775808 := by unfold wrap64; omega
      rw [hA, hB2]
      have e1 : ¬ (-9223372036854775808 : Int) = 2 * (j : Int) + 1 := by omega
      have e2 : ¬ t + 1 = 2 * (j : Int) + 1 := by omega
      have e3 : ¬ (-9223372036854775808 : Int) = 2 * (j : Int) + 2 := by omega
      have e4 : ¬ t + 1 = 2 * (j : Int) + 2 := by omega
      rw [if_neg e1, if_neg e2, if_neg e3, if_neg e4]
      exact hold

/-- Whatever the connection does, a call keeps the records in balanced pairs. -/
theorem run_paired (env : Nat → Env) (c : Call) (s : Sys) (hp : Paired s.db) :
    Paired (c.run env s).2.db := by
  rcases run_cases env c s with ⟨_, h, _⟩ | ⟨_, i, _, _, h, _⟩
  · rw [h]; exact hp
  · rw [h]
    have hp2 := hp
    obtain ⟨h0, h1, h2, _⟩ := hp2
    cases hc : (env i).counter with
    | none =>
      have e : readCounter (env i) s.db = s.db.counter := by simp [readCounter, hc]
      rw [e]
      exact paired_commit c _ s.db hp h0 h1 h2
    | some msg =>
      have e : readCounter (env i) s.db = 0 := by simp [readCounter, hc]
      rw [e]
      exact paired_commit c 0 s.db hp (by decide) (by decide) (by decide)

theorem runCalls_paired (env : Nat → Env) (calls : List Call) :
    ∀ s : Sys, Paired s.db → Paired (runCalls env calls s).2.db := by
  induction calls with
  | nil => intro s hp; exact hp
  | cons c rest ih =>
    intro s hp
    simp only [runCalls]
    exact ih _ (run_paired env c s hp)

/-- With the records in balanced pairs, and the reads of the records
succeeding, the loop of `validate` is back at 0 after every even number of
iterations. -/
theorem tranSumLoop_even (v : ValidateEnv) (db : Store) (hp : Paired db)
    (hv : ∀ i : Int, v.record i = none) :
    ∀ m : Nat, 2 * (m : Int) ≤ maxInt → tranSumLoop v db (2 * m) = 0 := by
  intro m
  induction m with
  | zero => intro _; rfl
  | succ m ih =>
    intro hm
    have hm2 : 2 * (m : Int) + 2 ≤ maxInt := by push_cast at hm; omega
    have h0 := ih (by omega)
    have hpair := hp.2.2.2 m hm2
    have e : 2 * (m + 1) = 2 * m + 1 + 1 := by ring
    rw [e]
    simp only [tranSumLoop, h0, readAmount, hv]
    have c1 : ((2 * m : Nat) : Int) + 1 = 2 * (m : Int) + 1 := by push_cast; ring
    have c2 : ((2 * m + 1 : Nat) : Int) + 1 = 2 * (m : Int) + 2 := by push_cast; ring
    rw [c1, c2]
    unfold wrap64
    omega

theorem validateTranSum_paired (v : ValidateEnv) (db : Store) (hp : Paired db)
    (hv : ∀ i : Int, v.record i = none) :
    validateTranSum v db = some 0 := by
  have h0 := hp.1
  have h1 := hp.2.1
  have h2 := hp.2.2.1
  unfold maxInt at h2
  unfold minInt at h1
  unfold validateTranSum
  cases hc : v.counter with
  | some msg =>
    simp only [readOr0]
    rw [if_neg (by decide)]
    rfl
  | none =>
    simp only [readOr0]
    have hne : ¬ db.counter = maxInt := by unfold maxInt; omega
    rw [if_neg hne]
    have hm : db.counter.toNat = 2 * (db.counter.toNat / 2) := by omega
    rw [hm, tranSumLoop_even v db hp hv _ (by unfold maxInt; omega)]

theorem paired_start (db : Store) (hcnt : db.counter = 0) (hrec : db.tran = []) :
    Paired db := by
  refine ⟨by rw [hcnt]; decide, by rw [hcnt]; decide, by rw [hcnt]; decide, ?_⟩
  intro j _
  simp [recordAmount, hrec, kvGet]

/-- C7 (amended): started from a store whose counter is 0 or absent and that
holds no records, after any finite sequence of calls, whatever the connection
did during the calls, when the reads of the records made by `validate` succeed
(its read of the counter may fail), the sum computed by the second block of
`validate` is 0, and `validate` returns without logging "sum all transactions
not equals to 0". -/
theorem record_sum_zero (env : Nat → Env) (calls : List Call) (s0 : Sys) (v : ValidateEnv)
    (hcnt : s0.db.counter = 0) (hrec : s0.db.tran = []) (hv : ∀ i : Int, v.record i = none) :
    validateTranSum v (runCalls env calls s0).2.db = some 0 ∧
    ∃ logs : List String, validate v (runCalls env calls s0).2.db = some logs ∧
      "sum all transactions not equals to 0" ∉ logs := by
  have hp := runCalls_paired env calls s0 (paired_start s0.db hcnt hrec)
  have hs := validateTranSum_paired v _ hp hv
  refine ⟨hs, ?_⟩
  unfold validate
  rw [hs]
  refine ⟨_, rfl, ?_⟩
  by_cases h : validateAccSum v (runCalls env calls s0).2.db = 0
  · simp [h]
  · simp [h]

/-- Witness for C7: the nine actions of `main` on the seeded store, with every
read of `validate` succeeding. -/
theorem record_sum_zero_witness :
    validateTranSum quiet (runCalls okEnv actions seedSys).2.db = some 0 :=
  (record_sum_zero okEnv actions seedSys quiet (by decide) (by decide) (fun _ => rfl)).1

/-- Counterexample to C7 as stated: after `deposit("Acc1", 1000)` has committed
on the seeded store, the records under `tran:<1>` and `tran:<2>` hold the
amounts 1000 and -1000; when the `GET` of `tran:<2>` fails in `validate`, the
loop adds 1000 and 0, and `validate` logs "sum all transactions not equals to
0". -/
theorem failed_record_read_logged :
    (deposit okEnv "Acc1" 1000 seedSys).1 = none ∧
    recordAmount (deposit okEnv "Acc1" 1000 seedSys).2.db 1 = 1000 ∧
    recordAmount (deposit okEnv "Acc1" 1000 seedSys).2.db 2 = -1000 ∧
    validateTranSum secondRecordFails (deposit okEnv "Acc1" 1000 seedSys).2.db = some 1000 ∧
    validate secondRecordFails (deposit okEnv "Acc1" 1000 seedSys).2.db =
      some ["sum all transactions not equals to 0"] := by
  decide

/-! ### The scenario of `main` -/

theorem namedAmount_rec (c : Call) (t : Int) (n : String) :
    namedAmount n [c.rec0 t, c.rec1 t] = c.delta n := by
  cases c <;> rfl

/-- On an account map within `-L .. L` the store executes both balance updates
of a call whose amount `x ≥ 0` has `L + x` within the 64-bit range. -/
theorem fits_of_bounded (c : Call) (db : Store) (L : Int) (hb : Bounded L db.acc)
    (hx : 0 ≤ c.amount) (hL : L + c.amount ≤ maxInt) : c.fits db = true := by
  unfold maxInt at hL
  have key : ∀ (a b : String) (x : Int), 0 ≤ x → L + x ≤ 9223372036854775807 →
      (subOk a x db.acc = true ∧ accOk b x (accSub a x db.acc) = true) ∧
      (accOk a x db.acc = true ∧ subOk b x (accAdd a x db.acc) = true) := by
    intro a b x hx hL
    have ha := hb a
    have hbb := hb b
    have h1 : subOk a x db.acc = true := by
      simp only [subOk, accOk, inInt64, Bool.and_eq_true, decide_eq_true_eq]
      omega
    have h2 : accOk a x db.acc = true := by
      simp only [accOk, inInt64, Bool.and_eq_true, decide_eq_true_eq]
      omega
    refine ⟨⟨h1, ?_⟩, ⟨h2, ?_⟩⟩
    · have e := get_accSub a b x db.acc
      simp only [accOk, inInt64, Bool.and_eq_true, decide_eq_true_eq]
      rw [e]
      split <;> omega
    · have e := get_accAdd a b x db.acc
      simp only [subOk, accOk, inInt64, Bool.and_eq_true, decide_eq_true_eq]
      rw [e]
      split <;> omega
  cases c with
  | deposit a x =>
    have h := (key "Cash" a x hx hL).1
    simp only [Call.fits, Bool.and_eq_true]
    exact h
  | withdraw a x =>
    have h := (key "Cash" a x hx hL).2
    simp only [Call.fits, Bool.and_eq_true]
    exact h
  | transfer a b x =>
    have h := (key a b x hx hL).1
    simp only [Call.fits, Bool.and_eq_true]
    exact h

/-- The two balance updates of a call with amount `x ≥ 0` take an account map
within `-L .. L` to one within `-(L + x) .. L + x`. -/
theorem bounded_move (c : Call) (acc : List (String × Int)) (L : Int) (hb : Bounded L acc)
    (hx : 0 ≤ c.amount) : Bounded (L + c.amount) (c.move acc) := by
  intro n
  have hn := hb n
  cases c with
  | deposit a x =>
    simp only [Call.amount] at hx
    simp only [Call.move, Call.amount, get_accAdd, get_accSub]
    split <;> split <;> omega
  | withdraw a x =>
    simp only [Call.amount] at hx
    simp only [Call.move, Call.amount, get_accAdd, get_accSub]
    split <;> split <;> omega
  | transfer a b x =>
    simp only [Call.amount] at hx
    simp only [Call.move, Call.amount, get_accAdd, get_accSub]
    split <;> split <;> omega

theorem run_bounded (env : Nat → Env) (c : Call) (s : Sys) (L : Int)
    (hb : Bounded L s.db.acc) (hx : 0 ≤ c.amount) :
    Bounded (L + c.amount) (c.run env s).2.db.acc := by
  rcases run_cases env c s with ⟨_, h, _⟩ | ⟨_, i, _, _, h, _⟩
  · rw [h]
    intro n
    have hn := hb n
    constructor <;> omega
  · rw [h, acc_batch_move]
    exact bounded_move c _ L hb hx

theorem amounts_nonneg (calls : List Call) (hx : ∀ c ∈ calls, 0 ≤ c.amount) :
    0 ≤ (calls.map Call.amount).sum := by
  induction calls with
  | nil => simp
  | cons c rest ih =>
    simp only [List.mem_cons, forall_eq_or_imp] at hx
    simp only [List.map_cons, List.sum_cons]
    have := ih hx.2
    omega

/-- From an account map within `-L .. L`, in a run of calls with amounts that
are not negative and with `L` plus their total within the 64-bit range, the
store refuses no balance update. -/
theorem runCalls_noRefusal (env : Nat → Env) (calls : List Call) :
    ∀ (s : Sys) (L : Int), Bounded L s.db.acc → (∀ c ∈ calls, 0 ≤ c.amount) →
      L + (calls.map Call.amount).sum ≤ maxInt → noRefusal env calls s = true := by
  induction calls with
  | nil => intro s L _ _ _; rfl
  | cons c rest ih =>
    intro s L hb hx hL
    simp only [List.mem_cons, forall_eq_or_imp] at hx
    simp only [List.map_cons, List.sum_cons] at hL
    have hrest := amounts_nonneg rest hx.2
    simp only [noRefusal, Bool.and_eq_true, Bool.or_eq_true, decide_eq_true_eq]
    refine ⟨Or.inr (fits_of_bounded c s.db L hb hx.1 (by omega)), ?_⟩
    exact ih _ (L + c.amount) (run_bounded env c s L hb hx.1) hx.2 (by omega)

theorem run_held (env : Nat → Env) (c : Call) (s : Sys) (n : String)
    (hfit : c.fits s.db = true) :
    (c.run env s).2.db.held n =
      s.db.held n + (if (c.run env s).1 = none then c.delta n else 0) := by
  rcases run_cases env c s with ⟨hne, h, _⟩ | ⟨_, i, _, hnone, h, _⟩
  · rw [if_neg hne, h]; omega
  · rw [if_pos hnone, h, held_batch _ _ _ _ hfit, namedAmount_rec]

theorem runCalls_held (env : Nat → Env) (n : String) (calls : List Call) :
    ∀ s : Sys, (∀ e ∈ (runCalls env calls s).1, e = none) → noRefusal env calls s = true →
      (runCalls env calls s).2.db.held n =
        s.db.held n + (calls.map (fun c => c.delta n)).sum := by
  induction calls with
  | nil => intro s _ _; simp [runCalls]
  | cons c rest ih =>
    intro s hall hnr
    simp only [runCalls, List.mem_cons, forall_eq_or_imp] at hall
    simp only [noRefusal, Bool.and_eq_true, Bool.or_eq_true, decide_eq_true_eq] at hnr
    simp only [runCalls, List.map_cons, List.sum_cons]
    have hfit : c.fits s.db = true := by
      rcases hnr.1 with h | h
      · exact absurd hall.1 h
      · exact h
    rw [ih _ hall.2 hnr.2, run_held env c s n hfit, if_pos hall.1]
    omega

theorem seed_bounded : Bounded 20000 seed.acc := by
  intro n
  simp only [seed, kvGet]
  split
  · simp
  · split
    · simp
    · split
      · simp
      · simp

/-- In every order of the nine actions of `main` the store refuses no balance
update. -/
theorem scenario_noRefusal (env : Nat → Env) (l : List Call) (hperm : l.Perm actions) :
    noRefusal env l seedSys = true := by
  have hact : ∀ c ∈ actions, 0 ≤ c.amount := by decide
  have hx : ∀ c ∈ l, 0 ≤ c.amount := fun c hc => hact c (hperm.mem_iff.mp hc)
  have hs : (l.map Call.amount).sum = 35000 := by
    rw [(hperm.map _).sum_eq]
    decide
  exact runCalls_noRefusal env l seedSys 20000 seed_bounded hx (by rw [hs]; decide)

/-- In every order of the nine actions of `main` in which each of them commits,
the integer under the key of an account is its seed plus the deltas of the nine
actions. -/
theorem scenario_held (env : Nat → Env) (l : List Call) (hperm : l.Perm actions)
    (hall : ∀ e ∈ (runCalls env l seedSys).1, e = none) (n : String) :
    (runCalls env l seedSys).2.db.held n =
      seedSys.db.held n + (actions.map (fun c => c.delta n)).sum := by
  rw [runCalls_held env n l seedSys hall (scenario_noRefusal env l hperm),
    (hperm.map _).sum_eq]

/-- Counterexample to C8 as stated: errors of `WATCH` and of the `GET` calls are
not returned.  After two committed deposits the counter is 4; a deposit whose
`GET id:tran` fails still returns nil, takes the counter back to 2 and replaces
the record under `tran:<1>`; a deposit whose `WATCH` fails returns nil; a
withdrawal of 1000 from `Acc1`, which holds 13000, whose `GET` of the balance
fails returns the insufficient-funds error, not the error of the store. -/
theorem read_failure_not_returned :
    afterTwo.db.idTran = some 4 ∧
    (deposit counterReadFails "Acc2" 5000 afterTwo).1 = none ∧
    (deposit counterReadFails "Acc2" 5000 afterTwo).2.db.idTran = some 2 ∧
    kvGet 1 afterTwo.db.tran =
      some { ID := 1, Amount := 1000, AccountID := "Acc1", Type_ := "deposit" } ∧
    kvGet 1 (deposit counterReadFails "Acc2" 5000 afterTwo).2.db.tran =
      some { ID := 1, Amount := 5000, AccountID := "Acc2", Type_ := "deposit" } ∧
    (deposit watchFails "Acc2" 5000 afterTwo).1 = none ∧
    afterTwo.db.balance "Acc1" = 13000 ∧
    (withdraw balanceReadFails "Acc1" 1000 afterTwo).1 =
      some (GoError.errorf "balance not enough for withdraw") := by
  refine ⟨by decide, by decide, by decide, by decide, by decide, by decide, by decide, by decide⟩

/-- An attempt whose `EXEC` returns an error returns that error, unless its
balance check failed before; the store is left as it was. -/
theorem attempt_exec_fail (env : Nat → Env) (c : Call) (s : Sys) (msg : String)
    (hex : (env s.tick).exec = ExecReply.fail msg) (hpass : c.check (env s.tick) s.db = none) :
    c.attempt env s = (some (GoError.store msg), { s with tick := s.tick + 1 }) := by
  rw [attempt_eq, hpass, hex]
  rfl

/-- An attempt whose `EXEC` returns a nil reply returns the sentinel, unless
its balance check failed before; the store is left as it was. -/
theorem attempt_exec_null (env : Nat → Env) (c : Call) (s : Sys)
    (hex : (env s.tick).exec = ExecReply.null) (hpass : c.check (env s.tick) s.db = none) :
    c.attempt env s = (some GoError.errAbout, { s with tick := s.tick + 1 }) := by
  rw [attempt_eq, hpass, hex]
  rfl

/-! ### Further properties of the retry loop and of the calls -/

/-- With a limit that is not positive `retry` does not run the unit of work
and returns nil. -/
theorem retry_nonpositive_limit {σ : Type} (f : σ → Option GoError × σ) (N : Int)
    (hN : N ≤ 0) (s : σ) : retry f N s = (none, s) := by
  have h : N.toNat = 0 := by omega
  simp [retry, h, retryLoop]

/-- Witness: with limit 0 the instrumented unit of work has been run 0 times. -/
theorem retry_nonpositive_limit_witness :
    retry (counted twiceAbort) 0 (5, 0) = (none, (5, 0)) :=
  retry_nonpositive_limit (counted twiceAbort) 0 (by decide) (5, 0)

theorem retryLoop_all_null (env : Nat → Env) (c : Call) (db : Store) (w : List Int) :
    ∀ (n : Nat) (e0 : Option GoError) (t : Nat), 0 < n →
      (∀ i, t ≤ i → i < t + n →
        (env i).exec = ExecReply.null ∧ c.check (env i) db = none) →
      retryLoop (c.attempt env) n e0 { db := db, tick := t, written := w } =
        (some GoError.errAbout, { db := db, tick := t + n, written := w }) := by
  intro n
  induction n with
  | zero => intro e0 t h; omega
  | succ n ih =>
    intro e0 t _ hall
    have h0 := hall t (le_refl _) (by omega)
    have hstep := attempt_exec_null env c { db := db, tick := t, written := w } h0.1 h0.2
    simp only [retryLoop, hstep, ne_eq, not_true_eq_false, if_false]
    cases n with
    | zero => simp [retryLoop]
    | succ n =>
      rw [ih (some GoError.errAbout) (t + 1) (by omega)
        (fun i h1 h2 => hall i (by omega) (by omega))]
      have e : t + 1 + (n + 1) = t + (n + 1 + 1) := by omega
      rw [e]

/-- When `EXEC` is rejected in ten attempts in a row (and the balance check
passes each time) the call returns the sentinel `errAbout` after exactly ten
attempts and the store and the history are as before. -/
theorem conflicts_exhaust_retries (env : Nat → Env) (c : Call) (s : Sys)
    (hx : 0 ≤ c.amount)
    (hall : ∀ i, s.tick ≤ i → i < s.tick + 10 →
      (env i).exec = ExecReply.null ∧ c.check (env i) s.db = none) :
    c.run env s =
      (some GoError.errAbout, { db := s.db, tick := s.tick + 10, written := s.written }) := by
  rw [run_eq, if_neg (by omega)]
  exact retryLoop_all_null env c s.db s.written 10 none s.tick (by decide) hall

/-- Witness: a deposit on a connection that rejects every `EXEC`. -/
theorem conflicts_exhaust_retries_witness :
    Call.run (healthy (fun _ => ExecReply.null)) (Call.deposit "Acc1" 1000) seedSys =
      (some GoError.errAbout,
        { db := seedSys.db, tick := seedSys.tick + 10, written := seedSys.written }) :=
  conflicts_exhaust_retries (healthy (fun _ => ExecReply.null)) (Call.deposit "Acc1" 1000)
    seedSys (by decide) (fun _ _ _ => ⟨rfl, rfl⟩)

/-- The loop over the attempts of a call: `k` rejected `EXEC`s followed by an
accepted one, the balance check passing each time. -/
theorem retryLoop_null_then_ok (env : Nat → Env) (c : Call) (db : Store) (w : List Int) :
    ∀ (k n : Nat) (e0 : Option GoError) (t : Nat), k < n →
      (∀ i, t ≤ i → i < t + k → (env i).exec = ExecReply.null) →
      (env (t + k)).exec = ExecReply.ok →
      (∀ i, t ≤ i → i ≤ t + k → c.check (env i) db = none) →
      retryLoop (c.attempt env) n e0 { db := db, tick := t, written := w } =
        (none, { db := applyBatch (c.batch (readCounter (env (t + k)) db)) db,
                 tick := t + k + 1,
                 written := w ++ tranKeys (c.batch (readCounter (env (t + k)) db)) }) := by
  intro k
  induction k with
  | zero =>
    intro n e0 t hn _ hok hpass
    cases n with
    | zero => omega
    | succ n =>
      have hstep : c.attempt env { db := db, tick := t, written := w } =
          (none, { db := applyBatch (c.batch (readCounter (env t) db)) db, tick := t + 1,
                   written := w ++ tranKeys (c.batch (readCounter (env t) db)) }) := by
        rw [attempt_eq]
        simp only [hpass t (le_refl _) (by omega)]
        have hok2 : (env t).exec = ExecReply.ok := hok
        rw [hok2]
        rfl
      simp [retryLoop, hstep]
  | succ k ih =>
    intro n e0 t hn hnull hok hpass
    cases n with
    | zero => omega
    | succ n =>
      have hstep := attempt_exec_null env c { db := db, tick := t, written := w }
        (hnull t (le_refl _) (by omega)) (hpass t (le_refl _) (by omega))
      simp only [retryLoop, hstep, ne_eq, not_true_eq_false, if_false]
      have e : t + 1 + k = t + (k + 1) := by omega
      have hrec := ih n (some GoError.errAbout) (t + 1) (by omega)
        (fun i h1 h2 => hnull i (by omega) (by omega))
        (by rw [e]; exact hok)
        (fun i h1 h2 => hpass i (by omega) (by omega))
      rw [e] at hrec
      exact hrec

/-- A call whose first `k < 10` attempts are rejected by `EXEC` and whose next
attempt is accepted (the balance check passing each time) returns nil; its
batch, built from the counter read in the accepted attempt, has been applied to
the store; `k + 1` attempts have run. -/
theorem conflict_then_commit (env : Nat → Env) (c : Call) (s : Sys) (k : Nat)
    (hx : 0 ≤ c.amount) (hk : k < 10)
    (hnull : ∀ i, s.tick ≤ i → i < s.tick + k → (env i).exec = ExecReply.null)
    (hok : (env (s.tick + k)).exec = ExecReply.ok)
    (hpass : ∀ i, s.tick ≤ i → i ≤ s.tick + k → c.check (env i) s.db = none) :
    c.run env s =
      (none, { db := applyBatch (c.batch (readCounter (env (s.tick + k)) s.db)) s.db,
               tick := s.tick + k + 1,
               written := s.written ++
                 tranKeys (c.batch (readCounter (env (s.tick + k)) s.db)) }) := by
  rw [run_eq, if_neg (by omega)]
  exact retryLoop_null_then_ok env c s.db s.written k 10 none s.tick hk hnull hok hpass

/-- Witness: a transfer that is rejected twice and then accepted. -/
theorem conflict_then_commit_witness :
    (Call.run (healthy (fun i => if i < 2 then ExecReply.null else ExecReply.ok))
      (Call.transfer "Acc1" "Acc2" 2000) seedSys).2.db.acc =
        [("Cash", -20000), ("Acc1", 8000), ("Acc2", 12000)] :=
  (congrArg (fun p : Option GoError × Sys => p.2.db.acc)
    (conflict_then_commit (healthy (fun i => if i < 2 then ExecReply.null else ExecReply.ok))
      (Call.transfer "Acc1" "Acc2" 2000) seedSys 2 (by decide) (by decide)
      (fun i _ h => by
        have h2 : i < 2 := by simpa [seedSys] using h
        simp [healthy, h2])
      (by decide)
      (fun _ _ _ => rfl))).trans
    (by decide)

/-- In every order of the nine actions of `main` in which each of them commits,
whatever the connection did during the calls, `validate` returns and logs
nothing when its own reads succeed. -/
theorem scenario_validate_silent (env : Nat → Env) (l : List Call)
    (hperm : l.Perm actions)
    (hall : ∀ e ∈ (runCalls env l seedSys).1, e = none) :
    validate quiet (runCalls env l seedSys).2.db = some [] := by
  have hheld := scenario_held env l hperm hall
  have hp := runCalls_paired env l seedSys (paired_start seed rfl rfl)
  have hs := validateTranSum_paired quiet _ hp (fun _ => rfl)
  have hacc : validateAccSum quiet (runCalls env l seedSys).2.db = 0 := by
    unfold validateAccSum Store.balance
    rw [hheld "Acc1", hheld "Acc2", hheld "Cash"]
    decide
  unfold validate
  rw [hs]
  simp [hacc]

/-- Witness: the listed order on a connection that accepts every `EXEC`. -/
theorem scenario_validate_silent_witness :
    validate quiet (runCalls okEnv actions seedSys).2.db = some [] :=
  scenario_validate_silent okEnv actions (List.Perm.refl _) (by decide)

theorem clamp64_nonneg (y : Int) (hy : 0 ≤ y) : 0 ≤ clamp64 y := by
  unfold clamp64
  split
  · omega
  · split <;> omega

/-- A committed `withdraw` or `transfer` on a connection whose reads of the
balance succeed leaves a balance that is not negative on the account it took
the amount from, whether the store executes the balance updates or not. -/
theorem no_overdraft (env : Nat → Env) (c : Call) (s : Sys) (a : String)
    (hsrc : c.source = some a) (hread : ∀ i, (env i).balance = none)
    (hcommit : (c.run env s).1 = none) :
    0 ≤ (c.run env s).2.db.balance a := by
  rcases run_cases env c s with ⟨hne, _, _⟩ | ⟨hx, i, hcheck, _, hdb, _⟩
  · exact absurd hcommit hne
  · have hB : c.amount ≤ clamp64 ((kvGet a s.db.acc).getD 0) := by
      cases c with
      | deposit a0 x0 => simp [Call.source] at hsrc
      | withdraw a0 x0 =>
        simp only [Call.source, Option.some.injEq] at hsrc
        subst hsrc
        by_cases h : readBalance (env i) s.db a0 < x0
        · simp [Call.check, h] at hcheck
        · simp only [readBalance, hread i, Store.balance, Store.held] at h
          simp only [Call.amount]
          omega
      | transfer a0 b0 x0 =>
        simp only [Call.source, Option.some.injEq] at hsrc
        subst hsrc
        by_cases h : readBalance (env i) s.db a0 < x0
        · simp [Call.check, h] at hcheck
        · simp only [readBalance, hread i, Store.balance, Store.held] at h
          simp only [Call.amount]
          omega
    have ht := tame_move c a s.db.acc
    rw [hdb]
    unfold Store.balance Store.held
    rw [acc_batch_move]
    cases hin : inInt64 ((kvGet a s.db.acc).getD 0) with
    | false =>
      rw [ht.2 hin]
      omega
    | true =>
      rw [inInt64_iff] at hin
      rw [clamp64_id _ hin.1 hin.2] at hB
      apply clamp64_nonneg
      cases c with
      | deposit a0 x0 => simp [Call.source] at hsrc
      | withdraw a0 x0 =>
        simp only [Call.amount] at hB hx
        simp only [Call.move, get_accAdd, get_accSub]
        split <;> split <;> omega
      | transfer a0 b0 x0 =>
        simp only [Call.amount] at hB hx
        simp only [Call.move, get_accAdd, get_accSub]
        split <;> split <;> omega

/-- Witness: withdrawing all of `Acc1` on the seeded store leaves it at 0. -/
theorem no_overdraft_witness :
    0 ≤ (Call.run okEnv (Call.withdraw "Acc1" 10000) seedSys).2.db.balance "Acc1" :=
  no_overdraft okEnv (Call.withdraw "Acc1" 10000) seedSys "Acc1" rfl (fun _ => rfl)
    (by decide)

/-- From the seeded store, in a run of calls whose amounts are not negative and
total at most the largest 64-bit integer minus 20000, the store refuses no
balance update and the sum of all balances stays 0, whatever the connection
does. -/
theorem bounded_run_conserves (env : Nat → Env) (calls : List Call)
    (hx : ∀ c ∈ calls, 0 ≤ c.amount)
    (hL : 20000 + (calls.map Call.amount).sum ≤ maxInt) :
    noRefusal env calls seedSys = true ∧
    (runCalls env calls seedSys).2.db.sumBalances = 0 := by
  have hnr := runCalls_noRefusal env calls seedSys 20000 seed_bounded hx hL
  refine ⟨hnr, ?_⟩
  rw [runCalls_sumBalances env calls seedSys hnr]
  decide

/-- Witness: the nine actions of `main` in the order in which one of them is
refused for lack of funds. -/
theorem bounded_run_conserves_witness :
    (runCalls okEnv drainedOrder seedSys).2.db.sumBalances = 0 :=
  (bounded_run_conserves okEnv drainedOrder (by decide) (by decide)).2
/-! ### Two goroutines racing -/

/-- The loop over the attempts of a call: after `k` rejected `EXEC`s (the
balance check passing each time) the next attempt ends the loop when it does
not return the sentinel. -/
theorem retryLoop_after_nulls (env : Nat → Env) (c : Call) (db : Store) (w : List Int) :
    ∀ (k n : Nat) (e0 : Option GoError) (t : Nat), k < n →
      (∀ i, t ≤ i → i < t + k →
        (env i).exec = ExecReply.null ∧ c.check (env i) db = none) →
      (c.attempt env { db := db, tick := t + k, written := w }).1 ≠ some GoError.errAbout →
      retryLoop (c.attempt env) n e0 { db := db, tick := t, written := w } =
        c.attempt env { db := db, tick := t + k, written := w } := by
  intro k
  induction k with
  | zero =>
    intro n e0 t hn _ hlast
    cases n with
    | zero => omega
    | succ n =>
      have hlast2 : (c.attempt env { db := db, tick := t, written := w }).1 ≠
          some GoError.errAbout := hlast
      simp only [retryLoop, ne_eq, hlast2, not_false_eq_true, if_true]
      rfl
  | succ k ih =>
    intro n e0 t hn hnull hlast
    cases n with
    | zero => omega
    | succ n =>
      have h0 := hnull t (le_refl _) (by omega)
      have hstep := attempt_exec_null env c { db := db, tick := t, written := w } h0.1 h0.2
      simp only [retryLoop, hstep, ne_eq, not_true_eq_false, if_false]
      have e : t + 1 + k = t + (k + 1) := by omega
      have hrec := ih n (some GoError.errAbout) (t + 1) (by omega)
        (fun i h1 h2 => hnull i (by omega) (by omega))
        (by rw [e]; exact hlast)
      rw [e] at hrec
      exact hrec

theorem check_errorf (c : Call) (e : Env) (db : Store) (err : GoError)
    (h : c.check e db = some err) : ∃ msg, err = GoError.errorf msg := by
  cases c with
  | deposit a x => simp [Call.check] at h
  | withdraw a x =>
    simp only [Call.check] at h
    split at h
    · exact ⟨_, (Option.some.inj h).symm⟩
    · exact absurd h (by simp)
  | transfer a b x =>
    simp only [Call.check] at h
    split at h
    · exact ⟨_, (Option.some.inj h).symm⟩
    · exact absurd h (by simp)

/-- The only error of the store connection that a call returns is the error
of an `EXEC`. -/
theorem run_store_error (env : Nat → Env) (c : Call) (s : Sys) (m : String)
    (h : (c.run env s).1 = some (GoError.store m)) : ∃ i, (env i).exec = ExecReply.fail m := by
  by_cases hx : c.amount < 0
  · rw [run_eq, if_pos hx] at h
    simp at h
  · obtain ⟨s1, _, _, _, heq⟩ := run_last env c s (by omega)
    rw [heq, attempt_eq] at h
    cases hc : c.check (env s1.tick) s1.db with
    | some err =>
      obtain ⟨msg, hmsg⟩ := check_errorf c _ _ err hc
      rw [hc, hmsg] at h
      simp at h
    | none =>
      rw [hc] at h
      cases hex : (env s1.tick).exec with
      | ok => rw [hex] at h; simp [execBatch] at h
      | null => rw [hex] at h; simp [execBatch] at h
      | fail msg =>
        rw [hex] at h
        simp only [execBatch, Option.some.injEq, GoError.store.injEq] at h
        exact ⟨s1.tick, by rw [hex, h]⟩

/-- C8 (amended): when the `EXEC` of an attempt returns an error (after `k < 10`
attempts whose `EXEC` was rejected, the balance check passing each time), the
call returns that error at once, without a further attempt, and the store and
the history are as they were.  No other error of the store connection is ever
returned by a call: a store error that a call returns is the error of an
`EXEC`. -/
theorem exec_failure_terminal (env : Nat → Env) (c : Call) (s : Sys) (k : Nat) (msg : String)
    (hx : 0 ≤ c.amount) (hk : k < 10)
    (hnull : ∀ i, s.tick ≤ i → i < s.tick + k → (env i).exec = ExecReply.null)
    (hfail : (env (s.tick + k)).exec = ExecReply.fail msg)
    (hpass : ∀ i, s.tick ≤ i → i ≤ s.tick + k → c.check (env i) s.db = none) :
    c.run env s =
      (some (GoError.store msg),
        { db := s.db, tick := s.tick + k + 1, written := s.written }) ∧
    (∀ (env2 : Nat → Env) (c2 : Call) (s2 : Sys) (m : String),
      (c2.run env2 s2).1 = some (GoError.store m) → ∃ i, (env2 i).exec = ExecReply.fail m) := by
  refine ⟨?_, fun env2 c2 s2 m h => run_store_error env2 c2 s2 m h⟩
  have hstep := attempt_exec_fail env c
    { db := s.db, tick := s.tick + k, written := s.written } msg hfail
    (hpass (s.tick + k) (by omega) (le_refl _))
  rw [run_eq, if_neg (by omega)]
  have h := retryLoop_after_nulls env c s.db s.written k 10 none s.tick hk
    (fun i h1 h2 => ⟨hnull i h1 h2, hpass i h1 (by omega)⟩)
    (by rw [hstep]; simp)
  rw [hstep] at h
  exact h

/-- Witness for C8: a withdrawal on a connection whose first `EXEC` fails. -/
theorem exec_failure_terminal_witness :
    Call.run (healthy (fun _ => ExecReply.fail "EOF")) (Call.withdraw "Acc1" 1000) seedSys =
      (some (GoError.store "EOF"),
        { db := seedSys.db, tick := seedSys.tick + 0 + 1, written := seedSys.written }) :=
  (exec_failure_terminal (healthy (fun _ => ExecReply.fail "EOF")) (Call.withdraw "Acc1" 1000)
    seedSys 0 "EOF" (by decide) (by decide) (fun i h1 h2 => absurd h2 (by omega)) rfl
    (fun _ _ _ => rfl)).1

end Ledger
